import Mathlib

/-!
Verification of the websearch_agent orchestration layer.

This file gives a shallow embedding, in Lean 4, of the pure/control-flow core
of the repository's pipeline:

* `search_agent/orchestrator.py`: `normalize_url`, `merge_and_deduplicate`,
  `rerank_results`, `run_orchestration`;
* `search_agent/answer_orchestrator.py`: `is_low_quality_content`, the URL
  selection step, the content-processing loop and the overall
  `orchestrate_answer_generation` control flow;
* `search_agent/answer_synthesizer.py`: `synthesize_answer`'s retry loop;
* `search_agent/answer_evaluator.py`: `evaluate_answer_quality`'s parse
  fallback and retry loop.

Python strings are modelled as `List Char` (`Str`); `str.lower` is modelled
ASCII-only (`lowerChar`), which agrees with Python on all ASCII inputs.
External effects (search providers, HTTP fetches, LLM calls, `json.loads`,
pydantic URL validation, spaCy) are modelled as explicit environment
parameters; exceptions are modelled with `Except` / explicit outcome types.
Wall-clock timing fields and log output are omitted: no claim depends on
them.
-/

namespace WSA

/-- Python `str` modelled as a list of characters. -/
abbrev Str := List Char

/-- ASCII lower-casing of one character: model of the effect of Python's
`str.lower` on a single ASCII character (code points 65–90 map to 97–122,
everything else is unchanged). -/
def lowerChar (c : Char) : Char :=
  if 65 ≤ c.toNat ∧ c.toNat ≤ 90 then Char.ofNat (c.toNat + 32) else c

/-- Model of Python `str.lower` (ASCII fragment). -/
def lowerStr (s : Str) : Str := s.map lowerChar

/-- Python `\s` (ASCII fragment): the whitespace characters recognised by
`re` in the pattern lists of `answer_orchestrator.py`. -/
def isSpaceChar (c : Char) : Bool :=
  c = ' ' || c = '\t' || c = '\n' || c = '\r' || c = '\x0b' || c = '\x0c'

/-- Python `s.rstrip('/')`: drop all trailing `'/'` characters. -/
def rstripSlash (s : Str) : Str := (s.reverse.dropWhile (· = '/')).reverse

/-- Python `s.strip()`: drop leading and trailing whitespace. -/
def pyStrip (s : Str) : Str :=
  ((s.dropWhile isSpaceChar).reverse.dropWhile isSpaceChar).reverse

/-- Python `s.startswith("5")`. -/
def startsWith5 (s : Str) : Bool :=
  match s with
  | c :: _ => c = '5'
  | [] => false

/-- Substring test: Python's `sub in s` on strings. -/
def containsSub (sub s : Str) : Bool := decide (sub <:+: s)

/-! ## Model of `urllib.parse.urlparse`

`orchestrator.normalize_url` and the URL-selection step of
`orchestrate_answer_generation` both call `urllib.parse.urlparse`.  We model
the scheme/netloc/path/query/fragment splitting of CPython's `urlsplit`
(parameter splitting on `;` is irrelevant here and omitted): first the
scheme is split off at the first `':'` when the text before it is a
well-formed scheme, then `//netloc` is split off up to the next `'/'`,
`'?'` or `'#'`, then the fragment is split at the first `'#'` and the query
at the first `'?'`. -/

/-- Characters CPython allows inside a URL scheme. -/
def isSchemeChar (c : Char) : Bool :=
  c.isAlpha || c.isDigit || c = '+' || c = '-' || c = '.'

/-- Result of `urllib.parse.urlparse`. -/
structure ParsedUrl where
  scheme : Str
  netloc : Str
  path : Str
  query : Str
  fragment : Str
deriving Repr, DecidableEq

/-- The text before the first `':'`. -/
def schemePre (u : Str) : Str := u.takeWhile (· ≠ ':')

/-- Split the scheme: CPython accepts `url[:i]` as a scheme when the first
`':'` is at position `i > 0`, the first character is a letter and all
characters before the colon are scheme characters; the scheme is
lower-cased. -/
def splitScheme (u : Str) : Str × Str :=
  if schemePre u ≠ u ∧ schemePre u ≠ [] ∧ ((schemePre u).headD ' ').isAlpha ∧
      (schemePre u).all isSchemeChar then
    (lowerStr (schemePre u), u.drop ((schemePre u).length + 1))
  else ([], u)

/-- A character that stays inside the netloc. -/
def netKeep (c : Char) : Bool := c ≠ '/' && c ≠ '?' && c ≠ '#'

/-- Split `//netloc` off the front: the netloc extends to the next `'/'`,
`'?'` or `'#'`. -/
def splitNetloc (u : Str) : Str × Str :=
  if u.take 2 = ['/', '/'] then
    ((u.drop 2).takeWhile netKeep,
      u.drop (2 + ((u.drop 2).takeWhile netKeep).length))
  else ([], u)

/-- Split at the first occurrence of a marker character, dropping the
marker: models `url.split('#', 1)` / `url.split('?', 1)`. -/
def splitAtChar (m : Char) (u : Str) : Str × Str :=
  (u.takeWhile (· ≠ m),
    if u.takeWhile (· ≠ m) = u then []
    else u.drop ((u.takeWhile (· ≠ m)).length + 1))

/-- Model of `urllib.parse.urlparse` (CPython `urlsplit` order: scheme,
netloc, fragment, query). -/
def urlparse (u : Str) : ParsedUrl :=
  let sr := splitScheme u
  let nr := splitNetloc sr.2
  let fr := splitAtChar '#' nr.2
  let pq := splitAtChar '?' fr.1
  ⟨sr.1, nr.1, pq.1, pq.2, fr.2⟩

/-- Embeds `orchestrator.normalize_url` (orchestrator.py lines 154–173):
lower-case the URL, parse it, strip trailing slashes from the path and
rebuild `f"{scheme}://{netloc}{path}"`, dropping query and fragment.  The
`except` branch of the source is unreachable in this model because the
parser is total. -/
def normalize_url (url : Str) : Str :=
  let parsed := urlparse (lowerStr url)
  let path := rstripSlash parsed.path
  parsed.scheme ++ "://".data ++ parsed.netloc ++ path

/-! ## Data model (`core/models.py`)

`SearchResult` is embedded with its three string fields; the pydantic
`HttpUrl` field is modelled as the string `str(result.url)`, which is how
every use site in the orchestrators consumes it.  `SearchModuleOutput`'s
`timestamp_utc` and `execution_time_seconds` fields are wall-clock data and
are omitted (no claim depends on them). -/

structure SearchResult where
  title : Str
  url : Str
  snippet : Str
deriving Repr, DecidableEq

structure SearchModuleOutput where
  source_name : Str
  query : Str
  results : List SearchResult
deriving Repr, DecidableEq

/-! ## `orchestrator.merge_and_deduplicate` (orchestrator.py lines 125–151)

The source accumulates a `dict` keyed by `normalize_url(str(result.url))`,
inserting only first occurrences, and returns `list(unique_results.values())`
— in CPython the values in insertion order.  `dedupeGo` carries the set of
keys already inserted and emits exactly the first occurrence per key, in
traversal order.  The guard `if output and output.results` skips outputs
with an empty result list, which leaves the traversed item sequence
unchanged; the traversed sequence is the concatenation of the per-output
result lists. -/

def dedupeGo (items : List SearchResult) (seen : List Str) : List SearchResult :=
  match items with
  | [] => []
  | r :: rest =>
    let key := normalize_url r.url
    if key ∈ seen then dedupeGo rest seen
    else r :: dedupeGo rest (key :: seen)

def merge_and_deduplicate (module_outputs : List SearchModuleOutput) : List SearchResult :=
  dedupeGo ((module_outputs.map (·.results)).flatten) []

/-! ## `orchestrator.rerank_results` (orchestrator.py lines 176–220) -/

/-- The `source_priorities` table of `rerank_results`. -/
def source_priorities : List (Str × Nat) :=
  [("api".data, 10), ("playwright".data, 8), ("selenium".data, 6),
   ("scrapy".data, 4), ("httpx".data, 2), ("unknown".data, 1)]

/-- Look a key up in `source_priorities` (Python dict access). -/
def priorityOf (key : Str) : Nat :=
  ((source_priorities.find? (fun p => p.1 = key)).map (·.2)).getD 0

/-- The API/search-engine indicator substrings checked by `get_priority`. -/
def api_indicators : List Str :=
  ["api.".data, "/api/".data, "search.".data, "engine.".data]

/-- Embeds `get_priority` from `rerank_results`: priority `'api'` when the
lower-cased URL contains one of the indicator substrings, else priority
`'unknown'`. -/
def get_priority (result : SearchResult) : Nat :=
  let url_str := lowerStr result.url
  if api_indicators.any (fun ind => containsSub ind url_str) then
    priorityOf "api".data
  else
    priorityOf "unknown".data

/-- The ordering realised by
`sorted(results, key=lambda r: (get_priority(r), -len(r.title)), reverse=True)`:
`a` precedes `b` iff `a`'s key tuple is lexicographically `≥` `b`'s, i.e.
higher priority first and, within a priority, shorter title first. -/
def rankGE (a b : SearchResult) : Prop :=
  get_priority b < get_priority a ∨
    (get_priority a = get_priority b ∧ a.title.length ≤ b.title.length)

instance : DecidableRel rankGE := fun a b => by unfold rankGE; infer_instance

instance : IsTotal SearchResult rankGE := ⟨by intro a b; unfold rankGE; omega⟩

instance : IsTrans SearchResult rankGE := ⟨by
  intro a b c hab hbc; unfold rankGE at *; omega⟩

/-- Embeds `rerank_results`: a stable sort by the key tuple
`(get_priority(r), -len(r.title))` in reverse (descending) order.  CPython's
`sorted` is stable and with `reverse=True` keeps equal-keyed elements in
input order; `List.insertionSort` with the reflexive relation `rankGE` has
exactly this behaviour. -/
def rerank_results (results : List SearchResult) : List SearchResult :=
  results.insertionSort rankGE

/-! ## `orchestrator.run_orchestration` (orchestrator.py lines 30–122)

The concurrent fan-out (`asyncio.gather(..., return_exceptions=True)`) is
modelled by its outcome vector: one `Except` per launched adapter task, an
exception or the adapter's `SearchModuleOutput`.  (The source also counts a
non-`SearchModuleOutput` return value as a failure; adapters are typed to
return `SearchModuleOutput`, so that arm coincides with the error arm
here.)  The function raises when no module could be loaded (no tasks) and
when every task failed; otherwise it merges, dedupes and reranks the
successful outputs. -/

/-- The success payload of one gathered task outcome: `isinstance(result,
SearchModuleOutput)` keeps the value, an exception is counted as failed. -/
def okPart (o : Except Str SearchModuleOutput) : Option SearchModuleOutput :=
  match o with
  | .ok out => some out
  | .error _ => none

def run_orchestration (outcomes : List (Except Str SearchModuleOutput))
    (query : Str) : Except Str SearchModuleOutput :=
  if outcomes.isEmpty then .error "No search modules could be loaded".data
  else
    let successful_results := outcomes.filterMap okPart
    if successful_results = [] then
      .error "All search modules failed to return results".data
    else
      .ok { source_name := "orchestrator".data
            query := query
            results := rerank_results (merge_and_deduplicate successful_results) }

/-! ## URL selection (`answer_orchestrator.py` lines 126–156)

The loop over `search_output.results` that builds `selected_urls`.  State:
the selected URLs (in order), the `seen_urls` set, and the `seen_domains`
set.  Note two literal features of the source: the per-domain count is the
substring test `domain in u` over the already selected URL strings (not a
netloc comparison), and the budget check `len(selected_urls) >=
num_links_to_parse` runs only *after* an append. -/

structure SelState where
  selected : List Str
  seen_urls : List Str
  seen_domains : List Str

def selectLoop (results : List SearchResult) (num_links_to_parse : Nat)
    (st : SelState) : List Str :=
  match results with
  | [] => st.selected
  | result :: rest =>
    if result.url = [] then selectLoop rest num_links_to_parse st
    else if result.url ∈ st.seen_urls then selectLoop rest num_links_to_parse st
    else
      let domain := (urlparse result.url).netloc
      if domain ∈ st.seen_domains ∧
          2 ≤ st.selected.countP (fun u => containsSub domain u) then
        selectLoop rest num_links_to_parse st
      else
        let st' : SelState :=
          ⟨st.selected ++ [result.url], result.url :: st.seen_urls,
            domain :: st.seen_domains⟩
        if num_links_to_parse ≤ st'.selected.length then st'.selected
        else selectLoop rest num_links_to_parse st'

/-- The URL-selection step of `orchestrate_answer_generation`. -/
def select_urls (results : List SearchResult) (num_links_to_parse : Nat) : List Str :=
  selectLoop results num_links_to_parse ⟨[], [], []⟩

/-! ## Content quality gate (`answer_orchestrator.py` lines 29–81)

Each regex in `ERROR_PAGE_PATTERNS` / `IRRELEVANT_CONTENT_PATTERNS` is a
sequence of literal tokens separated by `\s+`.  A pattern is stored as its
source text (used in the returned reason string) together with its token
list; `re.search(pattern, content, re.IGNORECASE)` is modelled by
`reSearch`: the tokens must occur in order starting at some position, each
consecutive pair separated by at least one whitespace character, comparing
characters case-insensitively (ASCII). -/

structure QualityPattern where
  src : Str
  toks : List Str
deriving Repr, DecidableEq

/-- Case-insensitive literal token match at the head of `s`: returns the
rest of `s` on success.  Tokens are stored lower-cased, as in the source
regexes. -/
def dropTokCI (tok s : Str) : Option Str :=
  match tok, s with
  | [], s => some s
  | _ :: _, [] => none
  | p :: ps, c :: cs => if lowerChar c = p then dropTokCI ps cs else none

/-- Match the token sequence starting exactly here: first token at the
head, then for each further token at least one whitespace character, then
that token.  The existential over the gap length reproduces the regex's
backtracking over `\s+`. -/
def matchToksAt (toks : List Str) (s : Str) : Bool :=
  match toks with
  | [] => true
  | t :: rest =>
    match dropTokCI t s with
    | none => false
    | some after =>
      match rest with
      | [] => true
      | _ :: _ =>
        (List.range after.length).any fun j =>
          ((after.take (j + 1)).all isSpaceChar) && matchToksAt rest (after.drop (j + 1))

/-- Model of `re.search(pattern, content, re.IGNORECASE)` for the pattern
shapes used here: try every start position. -/
def reSearch (toks : List Str) (s : Str) : Bool :=
  (List.range (s.length + 1)).any fun i => matchToksAt toks (s.drop i)

/-- `MIN_CONTENT_LENGTH` (answer_orchestrator.py line 30). -/
def MIN_CONTENT_LENGTH : Nat := 200

/-- `ERROR_PAGE_PATTERNS` (answer_orchestrator.py lines 31–42). -/
def ERROR_PAGE_PATTERNS : List QualityPattern :=
  [⟨"404\\s+not\\s+found".data, ["404".data, "not".data, "found".data]⟩,
   ⟨"403\\s+forbidden".data, ["403".data, "forbidden".data]⟩,
   ⟨"500\\s+internal\\s+server\\s+error".data,
     ["500".data, "internal".data, "server".data, "error".data]⟩,
   ⟨"access\\s+denied".data, ["access".data, "denied".data]⟩,
   ⟨"page\\s+not\\s+found".data, ["page".data, "not".data, "found".data]⟩,
   ⟨"content\\s+not\\s+available".data,
     ["content".data, "not".data, "available".data]⟩,
   ⟨"this\\s+page\\s+isn\x27t\\s+available".data,
     ["this".data, "page".data, "isn\x27t".data, "available".data]⟩,
   ⟨"sorry,\\s+we\\s+couldn\x27t\\s+find\\s+that\\s+page".data,
     ["sorry,".data, "we".data, "couldn\x27t".data, "find".data, "that".data,
      "page".data]⟩,
   ⟨"the\\s+requested\\s+url\\s+was\\s+not\\s+found".data,
     ["the".data, "requested".data, "url".data, "was".data, "not".data,
      "found".data]⟩,
   ⟨"the\\s+page\\s+you\\s+are\\s+looking\\s+for\\s+does\\s+not\\s+exist".data,
     ["the".data, "page".data, "you".data, "are".data, "looking".data,
      "for".data, "does".data, "not".data, "exist".data]⟩]

/-- `IRRELEVANT_CONTENT_PATTERNS` (answer_orchestrator.py lines 43–52). -/
def IRRELEVANT_CONTENT_PATTERNS : List QualityPattern :=
  [⟨"please\\s+enable\\s+javascript".data,
     ["please".data, "enable".data, "javascript".data]⟩,
   ⟨"please\\s+enable\\s+cookies".data,
     ["please".data, "enable".data, "cookies".data]⟩,
   ⟨"your\\s+browser\\s+is\\s+out\\s+of\\s+date".data,
     ["your".data, "browser".data, "is".data, "out".data, "of".data,
      "date".data]⟩,
   ⟨"captcha".data, ["captcha".data]⟩,
   ⟨"robot\\s+check".data, ["robot".data, "check".data]⟩,
   ⟨"cloudflare".data, ["cloudflare".data]⟩,
   ⟨"ddos\\s+protection".data, ["ddos".data, "protection".data]⟩,
   ⟨"security\\s+check".data, ["security".data, "check".data]⟩]

/-- Embeds `is_low_quality_content` (answer_orchestrator.py lines 55–81):
empty content, content shorter than `MIN_CONTENT_LENGTH`, then the first
matching error-page pattern, then the first matching irrelevant-content
pattern; otherwise `(False, "")`. -/
def is_low_quality_content (content : Str) : Bool × Str :=
  if content = [] then (true, "Empty content".data)
  else if content.length < MIN_CONTENT_LENGTH then
    (true, "Content too short (".data ++ (toString content.length).data
      ++ " chars)".data)
  else
    match ERROR_PAGE_PATTERNS.find? (fun p => reSearch p.toks content) with
    | some p => (true, "Detected error page pattern: ".data ++ p.src)
    | none =>
      match IRRELEVANT_CONTENT_PATTERNS.find? (fun p => reSearch p.toks content) with
      | some p => (true, "Detected irrelevant content pattern: ".data ++ p.src)
      | none => (false, [])

/-! ## `answer_synthesizer.synthesize_answer` (answer_synthesizer.py lines 19–145)

The LLM transport is modelled by a script: for each attempt index, the
outcome of `client.chat.completions.create` — the message content on
success, or the exception class (with its message) that was raised.  The
retry loop (lines 82–142) is embedded as `synthesizeLoop`; the prompt
construction and client configuration do not influence the retry behaviour
and are elided.  `await asyncio.sleep(delay)` is recorded in the returned
delay trace. -/

inductive LLMOutcome where
  | success (content : Str)
  | rateLimit (msg : Str)
  | connError (msg : Str)
  | apiError (msg : Str)
  | authError (msg : Str)
  | otherError (msg : Str)
deriving Repr, DecidableEq

/-- Result of a `synthesize_answer` run: the sleep delays performed (in
seconds, in order) and either the returned value (`Option Str`, since the
source returns `Optional[str]`) or the message of the raised
`SearchAgentError`. -/
instance {e a : Type} [DecidableEq e] [DecidableEq a] : DecidableEq (Except e a) :=
  fun x y =>
    match x, y with
    | .ok v, .ok w =>
      if h : v = w then .isTrue (congrArg Except.ok h)
      else .isFalse fun hh => h (Except.ok.inj hh)
    | .error v, .error w =>
      if h : v = w then .isTrue (congrArg Except.error h)
      else .isFalse fun hh => h (Except.error.inj hh)
    | .ok _, .error _ => .isFalse fun hh => Except.noConfusion hh
    | .error _, .ok _ => .isFalse fun hh => Except.noConfusion hh

structure SynthTrace where
  delays : List Nat
  result : Except Str (Option Str)
deriving Repr, DecidableEq

/-- `base_delay = 1`, `max_delay = 16` (answer_synthesizer.py lines 70–71):
the backoff delay at retry count `rc` is `min(max_delay, base_delay * 2 ** rc)`. -/
def backoffDelay (rc : Nat) : Nat := min 16 (1 * 2 ^ rc)

/-- The `while retry_count <= max_retries` loop of `synthesize_answer`.
On success the answer is `response.choices[0].message.content.strip()`.
Transient errors (rate limit, connection error, and API errors whose
message starts with "5") sleep and retry while `retry_count < max_retries`,
else raise `SearchAgentError`; authentication and unexpected errors raise
immediately.  If the loop guard ever failed the source would return
`None`. -/
def synthesizeLoop (script : Nat → LLMOutcome) (max_retries retry_count : Nat) :
    SynthTrace :=
  if retry_count ≤ max_retries then
    match script retry_count with
    | .success content => ⟨[], .ok (some (pyStrip content))⟩
    | .rateLimit m =>
      if retry_count < max_retries then
        let t := synthesizeLoop script max_retries (retry_count + 1)
        ⟨backoffDelay retry_count :: t.delays, t.result⟩
      else ⟨[], .error ("LLM rate limit exceeded after retries: ".data ++ m)⟩
    | .connError m =>
      if retry_count < max_retries then
        let t := synthesizeLoop script max_retries (retry_count + 1)
        ⟨backoffDelay retry_count :: t.delays, t.result⟩
      else ⟨[], .error ("LLM API connection failed after retries: ".data ++ m)⟩
    | .apiError m =>
      if startsWith5 m ∧ retry_count < max_retries then
        let t := synthesizeLoop script max_retries (retry_count + 1)
        ⟨backoffDelay retry_count :: t.delays, t.result⟩
      else ⟨[], .error ("LLM API error: ".data ++ m)⟩
    | .authError m => ⟨[], .error ("LLM authentication failed: ".data ++ m)⟩
    | .otherError m => ⟨[], .error ("LLM answer synthesis failed: ".data ++ m)⟩
  else ⟨[], .ok none⟩
termination_by max_retries + 1 - retry_count

/-- Embeds `synthesize_answer` for a given LLM script and configured retry
cap (`max_retries`, default 3 in the source). -/
def synthesize_answer (script : Nat → LLMOutcome) (max_retries : Nat) : SynthTrace :=
  synthesizeLoop script max_retries 0

/-- An LLM outcome in the transient error class of the claim: rate limited
or connection failure. -/
def transientOutcome (o : LLMOutcome) : Prop :=
  (∃ m, o = .rateLimit m) ∨ (∃ m, o = .connError m)

/-! ## `answer_evaluator.evaluate_answer_quality` (answer_evaluator.py lines 20–219)

Environment: the per-attempt LLM outcome script; `json.loads` modelled as a
function returning either a parsed payload or the `JSONDecodeError` message;
the markdown fenced-block extraction regex modelled as a function returning
the first fenced JSON-object candidate, if any; and the spaCy outcome.
Scores are modelled as rationals — no claim involves float arithmetic, only
assignment and the 0.0 default. -/

/-- The fields that `evaluate_answer_quality` reads off the parsed LLM
payload with `.get(key, 0.0)` / `.get("llm_feedback")`. -/
structure EvalPayload where
  factual_consistency_score : Option ℚ
  relevance_score : Option ℚ
  completeness_score : Option ℚ
  conciseness_score : Option ℚ
  llm_feedback : Option Str

/-- The `evaluation_results` dict. -/
structure EvalResults where
  factual_consistency_score : ℚ
  relevance_score : ℚ
  completeness_score : ℚ
  conciseness_score : ℚ
  llm_feedback : Option Str
  nlp_relevance_score : Option ℚ

/-- The initial `evaluation_results` value (answer_evaluator.py lines 34–41). -/
def initEvalResults : EvalResults := ⟨0, 0, 0, 0, none, none⟩

/-- Outcome of the spaCy block for a given (non-short) answer. -/
inductive NlpOutcome where
  | sim (score : ℚ)
  | noVectors
  | modelNotFound
  | otherExc (msg : Str)

/-- Environment for one `evaluate_answer_quality` run. -/
structure EvalEnv where
  script : Nat → LLMOutcome
  parseJson : Str → Except Str EvalPayload
  extractFenced : Str → Option Str
  nlp : NlpOutcome

/-- Store a parsed payload into `evaluation_results`
(answer_evaluator.py lines 135–139). -/
def applyPayload (p : EvalPayload) (res : EvalResults) : EvalResults :=
  { res with
    factual_consistency_score := p.factual_consistency_score.getD 0
    relevance_score := p.relevance_score.getD 0
    completeness_score := p.completeness_score.getD 0
    conciseness_score := p.conciseness_score.getD 0
    llm_feedback := p.llm_feedback }

/-- The LLM-evaluation retry loop (answer_evaluator.py lines 100–190).
Unlike the synthesizer, every terminal arm `break`s with the accumulated
`evaluation_results` instead of raising. -/
def evalLoop (env : EvalEnv) (max_retries retry_count : Nat) (res : EvalResults) :
    EvalResults :=
  if retry_count ≤ max_retries then
    match env.script retry_count with
    | .success llm_output =>
      match env.parseJson llm_output with
      | .ok payload => applyPayload payload res
      | .error _ =>
        match env.extractFenced llm_output with
        | some candidate =>
          match env.parseJson candidate with
          | .ok payload => applyPayload payload res
          | .error e =>
            let msg := "Error parsing LLM evaluation output: ".data ++ e
              ++ ". Output: ".data ++ llm_output
            { res with llm_feedback := some msg }
        | none =>
          let msg := "Error parsing LLM evaluation output: No valid JSON found. Output: ".data
            ++ llm_output
          { res with llm_feedback := some msg }
    | .rateLimit m =>
      if retry_count < max_retries then
        evalLoop env max_retries (retry_count + 1) res
      else
        let msg := "LLM rate limit exceeded after retries: ".data ++ m
        { res with llm_feedback := some msg }
    | .connError m =>
      if retry_count < max_retries then
        evalLoop env max_retries (retry_count + 1) res
      else
        let msg := "LLM API connection failed after retries: ".data ++ m
        { res with llm_feedback := some msg }
    | .apiError m =>
      if startsWith5 m ∧ retry_count < max_retries then
        evalLoop env max_retries (retry_count + 1) res
      else
        { res with llm_feedback := some ("LLM API error: ".data ++ m) }
    | .authError m =>
      { res with llm_feedback := some ("LLM authentication failed: ".data ++ m) }
    | .otherError m =>
      { res with llm_feedback := some ("LLM evaluation failed: ".data ++ m) }
  else res
termination_by max_retries + 1 - retry_count

/-- The feedback text appended when the spaCy model is missing
(answer_evaluator.py lines 213–214). -/
def spacyMissingMsg : Str :=
  " spaCy model \x27en_core_web_md\x27 not found. Please install it with: python -m spacy download en_core_web_md".data

/-- The NLP cosine-similarity block (answer_evaluator.py lines 192–217):
short or empty answers score 0; otherwise the spaCy outcome decides the
score, and spaCy failures append to the feedback instead of raising. -/
def nlpStage (synthesized_answer : Str) (nlp : NlpOutcome) (res : EvalResults) :
    EvalResults :=
  if synthesized_answer = [] ∨ synthesized_answer.length < 10 then
    { res with nlp_relevance_score := some 0 }
  else
    match nlp with
    | .sim score => { res with nlp_relevance_score := some score }
    | .noVectors => { res with nlp_relevance_score := some 0 }
    | .modelNotFound =>
      { res with llm_feedback := some ((res.llm_feedback.getD []) ++ spacyMissingMsg) }
    | .otherExc m =>
      let msg := (res.llm_feedback.getD []) ++ " NLP evaluation failed: ".data ++ m
      { res with llm_feedback := some msg }

/-- Embeds `evaluate_answer_quality` (the `config=None` path: evaluation
enabled, default retry cap): LLM evaluation loop, then the NLP block. -/
def evaluate_answer_quality (env : EvalEnv) (synthesized_answer : Str)
    (max_retries : Nat) : EvalResults :=
  nlpStage synthesized_answer env.nlp (evalLoop env max_retries 0 initEvalResults)

/-! ## `orchestrate_answer_generation` (answer_orchestrator.py lines 84–329)

Environment: the search-orchestration outcome (value or raised exception,
distinguishing `SearchAgentError` from other exceptions, since the two
`except` arms differ), the per-URL fetch outcome of `extract_main_content`
(`asyncio.gather(..., return_exceptions=True)` delivers one outcome per
selected URL), the synthesizer outcome for a given content set, the
evaluator's result dict, and pydantic `HttpUrl` validation.  The final
structured-output `try` block cannot raise in this model (it only builds
records), so its `except` fallback is unreachable, as are pydantic
validation failures of the typed objects. -/

/-- Outcome of `extract_main_content(url)` under
`asyncio.gather(..., return_exceptions=True)`: a raised exception or the
extracted text (possibly empty). -/
inductive FetchOutcome where
  | exc (msg : Str)
  | ok (text : Str)
deriving Repr, DecidableEq

/-- A raised Python exception, split by the two `except` arms of the
source: `SearchAgentError` vs. any other `Exception`. -/
inductive PyErr where
  | sa (msg : Str)
  | other (msg : Str)
deriving Repr, DecidableEq

/-- State built by the content-processing loop
(answer_orchestrator.py lines 168–191). -/
structure ProcState where
  extracted_contents : List Str
  filtered_contents : List Str
  source_urls : List Str
  extraction_success_count : Nat
  extraction_failure_count : Nat
  low_quality_content_count : Nat
  errors : List Str
deriving Repr, DecidableEq

def initProcState : ProcState := ⟨[], [], [], 0, 0, 0, []⟩

/-- One iteration of the content-processing loop: an exception counts as an
extraction failure; a non-empty text is quality-checked — low-quality text
is only counted and logged, while good text is appended to
`extracted_contents`, `filtered_contents` and `source_urls`; an empty text
counts as an extraction failure. -/
def processOne (st : ProcState) (url : Str) (oc : FetchOutcome) : ProcState :=
  match oc with
  | .exc m =>
    { st with
      extraction_failure_count := st.extraction_failure_count + 1
      errors := st.errors ++ ["Extraction error for ".data ++ url ++ ": ".data ++ m] }
  | .ok text =>
    if text ≠ [] then
      let q := is_low_quality_content text
      if q.1 then
        { st with
          low_quality_content_count := st.low_quality_content_count + 1
          errors := st.errors ++
            ["Low quality content from ".data ++ url ++ ": ".data ++ q.2] }
      else
        { st with
          extracted_contents := st.extracted_contents ++ [text]
          filtered_contents := st.filtered_contents ++ [text]
          source_urls := st.source_urls ++ [url]
          extraction_success_count := st.extraction_success_count + 1 }
    else
      { st with extraction_failure_count := st.extraction_failure_count + 1 }

/-- The content-processing loop over the selected URLs and their fetch
outcomes. -/
def processContents (pairs : List (Str × FetchOutcome)) : ProcState :=
  pairs.foldl (fun st p => processOne st p.1 p.2) initProcState

/-- Environment of one `orchestrate_answer_generation` run. -/
structure OrchEnv where
  searchOutcome : Except PyErr (List SearchResult)
  fetch : Str → FetchOutcome
  synth : List Str → Except PyErr (Option Str)
  evalRes : Str → List Str → EvalResults
  validUrl : Str → Bool

/-- Per-run counters of the `metadata` dict (timing entries omitted). -/
structure OrchCounts where
  total_urls_found : Nat
  urls_selected : Nat
  extraction_success_count : Nat
  extraction_failure_count : Nat
  low_quality_content_count : Nat
deriving Repr, DecidableEq

/-- The returned result dict: the answer text (`synthesized_answer` /
`synthesized_answer.answer`), the validated source-URL list, the content
set exposed as `extracted_contents`, the evaluation fields, the error list
and the counters. -/
structure OrchResult where
  query : Str
  answer : Str
  source_urls : List Str
  extracted_contents : List Str
  evaluation_results : EvalResults
  errors : List Str
  counts : OrchCounts

/-- `f"I couldn't find any relevant information to answer your question
about '{query}'. ..."` (answer_orchestrator.py line 208). -/
def noContentMsg (query : Str) : Str :=
  "I couldn\x27t find any relevant information to answer your question about \x27".data
    ++ query
    ++ "\x27. Please try rephrasing your query or providing more specific details.".data

/-- `f"I couldn't generate a good answer ..."` (line 233). -/
def emptyAnswerMsg (query : Str) : Str :=
  "I couldn\x27t generate a good answer to your question about \x27".data ++ query
    ++ "\x27 based on the information I found. Please try rephrasing your query.".data

/-- `f"I encountered an error while trying to answer your question about
'{query}': {e}"` (line 261). -/
def saErrorMsg (query m : Str) : Str :=
  "I encountered an error while trying to answer your question about \x27".data
    ++ query ++ "\x27: ".data ++ m

/-- `f"I encountered an unexpected error ..."` (line 265). -/
def unexpectedErrorMsg (query : Str) : Str :=
  "I encountered an unexpected error while trying to answer your question about \x27".data
    ++ query ++ "\x27. Please try again later.".data

/-- The final structured-output construction (lines 271–315): string URLs
that fail pydantic `HttpUrl` validation are skipped; the evaluation fields
are read with `.get(key, default)` — for runs where an exception skipped
evaluation the dict is empty and every field takes its default, which is
exactly `initEvalResults`. -/
def finalizeOutput (env : OrchEnv) (query answer : Str)
    (source_urls contents : List Str) (ev : EvalResults) (errors : List Str)
    (counts : OrchCounts) : OrchResult :=
  { query := query
    answer := answer
    source_urls := source_urls.filter env.validUrl
    extracted_contents := contents
    evaluation_results := ev
    errors := errors
    counts := counts }

/-- Synthesis and evaluation (lines 223–256) followed by the final
construction.  A raised `SearchAgentError` / other exception from the
synthesizer is caught by the outer handler, skipping evaluation; an empty
(or `None`) answer is replaced by the fallback message; a short answer is
only flagged.  The two low-score warnings append to the error list (the
numeric score rendering inside those messages is omitted). -/
def afterSynthesis (env : OrchEnv) (query : Str) (st : ProcState)
    (contents : List Str) (errs : List Str) (counts : OrchCounts) : OrchResult :=
  match env.synth contents with
  | .error (.sa m) =>
    finalizeOutput env query (saErrorMsg query m) st.source_urls contents
      initEvalResults (errs ++ ["Answer orchestration error: ".data ++ m]) counts
  | .error (.other m) =>
    finalizeOutput env query (unexpectedErrorMsg query) st.source_urls contents
      initEvalResults (errs ++ ["Unexpected error: ".data ++ m]) counts
  | .ok osy =>
    let (answer, errs2) :=
      match osy with
      | none => (emptyAnswerMsg query, errs ++ ["LLM returned empty answer".data])
      | some a =>
        if a = [] then (emptyAnswerMsg query, errs ++ ["LLM returned empty answer".data])
        else if a.length < 50 then (a, errs ++ ["LLM returned very short answer".data])
        else (a, errs)
    let ev := env.evalRes answer contents
    let errs3 := errs2
      ++ (if ev.factual_consistency_score < 1/2 then
            ["Low factual consistency score".data] else [])
      ++ (if ev.relevance_score < 1/2 then ["Low relevance score".data] else [])
    finalizeOutput env query answer st.source_urls contents ev errs3 counts

/-- Embeds `orchestrate_answer_generation`: search, URL selection, fetch
fan-out, content processing, the low-quality fallback test, the terminal
no-content early return (lines 202–221), then synthesis/evaluation and the
final construction.  A search exception jumps to the outer handlers with
everything still at its initial value. -/
def orchestrate_answer_generation (env : OrchEnv) (query : Str)
    (num_links_to_parse : Nat) : OrchResult :=
  match env.searchOutcome with
  | .error (.sa m) =>
    finalizeOutput env query (saErrorMsg query m) [] [] initEvalResults
      ["Answer orchestration error: ".data ++ m] ⟨0, 0, 0, 0, 0⟩
  | .error (.other m) =>
    finalizeOutput env query (unexpectedErrorMsg query) [] [] initEvalResults
      ["Unexpected error: ".data ++ m] ⟨0, 0, 0, 0, 0⟩
  | .ok results =>
    let selected := select_urls results num_links_to_parse
    let st := processContents (selected.map fun u => (u, env.fetch u))
    let counts : OrchCounts :=
      ⟨results.length, selected.length, st.extraction_success_count,
        st.extraction_failure_count, st.low_quality_content_count⟩
    if st.filtered_contents = [] then
      if st.extracted_contents ≠ [] then
        afterSynthesis env query st st.extracted_contents
          (st.errors ++ ["Using low quality content as fallback".data]) counts
      else
        let evFeedback : Option Str :=
          some "No content could be extracted from search results.".data
        let termErrors := st.errors ++
          ["No content could be extracted from the selected search results.".data]
        { query := query
          answer := noContentMsg query
          source_urls := []
          extracted_contents := []
          evaluation_results := { initEvalResults with llm_feedback := evFeedback }
          errors := termErrors
          counts := counts }
    else
      afterSynthesis env query st st.filtered_contents st.errors counts

/-! ## Helper lemmas -/

theorem char_toNat_ofNat (n : Nat) (h : n < 55296) : (Char.ofNat n).toNat = n := by
  have hv : n.isValidChar := Or.inl h
  simp [Char.ofNat, hv, Char.ofNatAux, Char.toNat, UInt32.ofNatCore, UInt32.toNat,
    BitVec.toNat_ofNatLt]

theorem lowerChar_idem (c : Char) : lowerChar (lowerChar c) = lowerChar c := by
  unfold lowerChar
  by_cases h : 65 ≤ c.toNat ∧ c.toNat ≤ 90
  · have ht : (Char.ofNat (c.toNat + 32)).toNat = c.toNat + 32 :=
      char_toNat_ofNat _ (by omega)
    have h2 : ¬ (65 ≤ c.toNat + 32 ∧ c.toNat + 32 ≤ 90) := by omega
    rw [if_pos h, ht, if_neg h2]
  · simp [h]

theorem lowerStr_idem (s : Str) : lowerStr (lowerStr s) = lowerStr s := by
  unfold lowerStr
  rw [List.map_map]
  exact List.map_congr_left fun c _ => lowerChar_idem c

/-! ## C9: the content-quality classifier -/

/-- **C9.** For every string `s`, `is_low_quality_content s` classifies `s`
as low quality if and only if `s` is empty, shorter than
`MIN_CONTENT_LENGTH` (200 characters), or matched (case-insensitively) by
at least one pattern of the fixed error-page or interstitial/anti-bot
lists.  The classifier is a pure function of `s` alone, so the
classification is deterministic and independent across documents. -/
theorem is_low_quality_content_iff (content : Str) :
    (is_low_quality_content content).1 = true ↔
      content = [] ∨ content.length < MIN_CONTENT_LENGTH ∨
        ∃ p ∈ ERROR_PAGE_PATTERNS ++ IRRELEVANT_CONTENT_PATTERNS,
          reSearch p.toks content = true := by
  unfold is_low_quality_content
  by_cases h0 : content = []
  · rw [if_pos h0]
    exact iff_of_true rfl (Or.inl h0)
  · rw [if_neg h0]
    by_cases h1 : content.length < MIN_CONTENT_LENGTH
    · rw [if_pos h1]
      exact iff_of_true rfl (Or.inr (Or.inl h1))
    · rw [if_neg h1]
      rcases hE : ERROR_PAGE_PATTERNS.find? (fun p => reSearch p.toks content)
        with _ | p
      · rcases hI : IRRELEVANT_CONTENT_PATTERNS.find? (fun p => reSearch p.toks content)
          with _ | q
        · simp only [hE, hI]
          apply iff_of_false (by simp)
          rintro (h | h | ⟨p, hp, hr⟩)
          · exact h0 h
          · exact h1 h
          · rcases List.mem_append.mp hp with hmem | hmem
            · exact absurd hr (by simpa using List.find?_eq_none.mp hE p hmem)
            · exact absurd hr (by simpa using List.find?_eq_none.mp hI p hmem)
        · simp only [hE, hI]
          apply iff_of_true trivial
          refine Or.inr (Or.inr ⟨q, List.mem_append.mpr
            (Or.inr (List.mem_of_find?_eq_some hI)), ?_⟩)
          simpa using List.find?_some hI
      · simp only [hE]
        apply iff_of_true trivial
        refine Or.inr (Or.inr ⟨p, List.mem_append.mpr
          (Or.inl (List.mem_of_find?_eq_some hE)), ?_⟩)
        simpa using List.find?_some hE

/-- Witness for C9 at concrete inputs: the empty string is classified low
quality via the left disjunct of the characterisation. -/
theorem is_low_quality_content_iff_witness :
    (is_low_quality_content []).1 = true :=
  (is_low_quality_content_iff []).mpr (Or.inl rfl)

/-! ## C2: merge and deduplicate -/

theorem dedupeGo_sublist (items : List SearchResult) (seen : List Str) :
    List.Sublist (dedupeGo items seen) items := by
  induction items generalizing seen with
  | nil => simp [dedupeGo]
  | cons r rest ih =>
    unfold dedupeGo
    by_cases h : normalize_url r.url ∈ seen
    · simp only [h, if_true]
      exact (ih seen).trans (List.sublist_cons_self r rest)
    · simp only [h, if_false]
      exact (ih _).cons₂ r

theorem dedupeGo_keys_fresh (items : List SearchResult) (seen : List Str) :
    ∀ x ∈ dedupeGo items seen, normalize_url x.url ∉ seen := by
  induction items generalizing seen with
  | nil => simp [dedupeGo]
  | cons r rest ih =>
    unfold dedupeGo
    by_cases h : normalize_url r.url ∈ seen
    · simp only [h, if_true]
      exact ih seen
    · simp only [h, if_false]
      intro x hx
      rcases List.mem_cons.mp hx with rfl | hx
      · exact h
      · exact fun hmem => ih _ x hx (List.mem_cons_of_mem _ hmem)

theorem dedupeGo_keys_nodup (items : List SearchResult) (seen : List Str) :
    ((dedupeGo items seen).map fun r => normalize_url r.url).Nodup := by
  induction items generalizing seen with
  | nil => simp [dedupeGo]
  | cons r rest ih =>
    unfold dedupeGo
    by_cases h : normalize_url r.url ∈ seen
    · simp only [h, if_true]
      exact ih seen
    · simp only [h, if_false]
      refine List.nodup_cons.mpr ⟨?_, ih _⟩
      intro hmem
      rcases List.mem_map.mp hmem with ⟨x, hx, hk⟩
      exact dedupeGo_keys_fresh rest _ x hx (hk ▸ List.mem_cons_self _ _)

theorem dedupeGo_covers (items : List SearchResult) (seen : List Str) :
    ∀ y ∈ items, normalize_url y.url ∈ seen ∨
      ∃ x ∈ dedupeGo items seen, normalize_url x.url = normalize_url y.url := by
  induction items generalizing seen with
  | nil => simp
  | cons r rest ih =>
    intro y hy
    unfold dedupeGo
    by_cases h : normalize_url r.url ∈ seen
    · simp only [h, if_true]
      rcases List.mem_cons.mp hy with rfl | hy
      · exact Or.inl h
      · exact ih seen y hy
    · simp only [h, if_false]
      rcases List.mem_cons.mp hy with heq | hy
      · exact Or.inr ⟨r, List.mem_cons_self _ _, by rw [heq]⟩
      · rcases ih (normalize_url r.url :: seen) y hy with hmem | ⟨x, hx, hk⟩
        · rcases List.mem_cons.mp hmem with heq | hmem
          · exact Or.inr ⟨r, List.mem_cons_self _ _, heq.symm⟩
          · exact Or.inl hmem
        · exact Or.inr ⟨x, List.mem_cons_of_mem _ hx, hk⟩

theorem dedupeGo_first (items : List SearchResult) (seen : List Str) :
    ∀ x ∈ dedupeGo items seen, ∃ pre post, items = pre ++ x :: post ∧
      ∀ y ∈ pre, normalize_url y.url = normalize_url x.url →
        normalize_url y.url ∈ seen := by
  induction items generalizing seen with
  | nil => simp [dedupeGo]
  | cons r rest ih =>
    intro x hx
    unfold dedupeGo at hx
    by_cases h : normalize_url r.url ∈ seen
    · simp only [h, if_true] at hx
      rcases ih seen x hx with ⟨pre, post, hsplit, hpre⟩
      refine ⟨r :: pre, post, by rw [hsplit, List.cons_append], ?_⟩
      intro y hy hk
      rcases List.mem_cons.mp hy with heq | hy
      · rw [heq]; exact h
      · exact hpre y hy hk
    · simp only [h, if_false] at hx
      rcases List.mem_cons.mp hx with heq | hx
      · exact ⟨[], rest, by simp [heq], by simp⟩
      · rcases ih _ x hx with ⟨pre, post, hsplit, hpre⟩
        have hxfresh := dedupeGo_keys_fresh rest (normalize_url r.url :: seen) x hx
        refine ⟨r :: pre, post, by rw [hsplit, List.cons_append], ?_⟩
        intro y hy hk
        rcases List.mem_cons.mp hy with heq | hy
        · exfalso
          apply hxfresh
          rw [← hk, heq]
          exact List.mem_cons_self _ _
        · rcases List.mem_cons.mp (hpre y hy hk) with heq2 | hmem
          · exfalso
            apply hxfresh
            rw [← hk, heq2]
            exact List.mem_cons_self _ _
          · exact hmem

/-- **C2.** `merge_and_deduplicate` keeps, per distinct normalized URL,
exactly the first item encountered when traversing the provider outputs in
adapter-processing order: the merged list is a subsequence of the traversed
item sequence, its normalized keys are pairwise distinct, every input key
is represented, and each kept item is preceded (in the input) only by items
with different normalized keys.  Later items whose key collides with an
earlier one are dropped, not merged. -/
theorem merge_and_deduplicate_spec (module_outputs : List SearchModuleOutput) :
    List.Sublist (merge_and_deduplicate module_outputs)
        ((module_outputs.map (·.results)).flatten) ∧
    ((merge_and_deduplicate module_outputs).map fun r => normalize_url r.url).Nodup ∧
    (∀ y ∈ (module_outputs.map (·.results)).flatten,
      ∃ x ∈ merge_and_deduplicate module_outputs,
        normalize_url x.url = normalize_url y.url) ∧
    (∀ x ∈ merge_and_deduplicate module_outputs,
      ∃ pre post, (module_outputs.map (·.results)).flatten = pre ++ x :: post ∧
        ∀ y ∈ pre, normalize_url y.url ≠ normalize_url x.url) := by
  refine ⟨dedupeGo_sublist _ _, dedupeGo_keys_nodup _ _, ?_, ?_⟩
  · intro y hy
    rcases dedupeGo_covers _ [] y hy with hmem | hx
    · exact absurd hmem (List.not_mem_nil _)
    · exact hx
  · intro x hx
    rcases dedupeGo_first _ [] x hx with ⟨pre, post, hsplit, hpre⟩
    exact ⟨pre, post, hsplit, fun y hy hk => absurd (hpre y hy hk) (List.not_mem_nil _)⟩

/-- Witness for C2 at a concrete input: two provider outputs whose URLs
collide on the normalized key `http://a.com/x`; the kept entry for that key
is the first-encountered item `t1`. -/
theorem merge_and_deduplicate_spec_witness :
    ∃ x ∈ merge_and_deduplicate
        [⟨"m1".data, "q".data, [⟨"t1".data, "http://A.com/x/".data, [] ⟩,
                                 ⟨"t2".data, "http://b.com".data, [] ⟩]⟩,
         ⟨"m2".data, "q".data, [⟨"t3".data, "http://a.com/x".data, [] ⟩]⟩],
      normalize_url x.url =
        normalize_url (SearchResult.mk "t3".data "http://a.com/x".data []).url :=
  (merge_and_deduplicate_spec _).2.2.1
    (SearchResult.mk "t3".data "http://a.com/x".data []) (by decide)

/-! ## C5: deterministic reranking -/

/-- **C5.** `rerank_results` returns a permutation of its input that is
sorted by priority tier descending and, within a tier, by title length
ascending (the `rankGE` ordering); an item is in the highest tier (priority
10) exactly when its lower-cased URL contains one of the API/search-engine
indicator substrings, and in the default tier (priority 1) otherwise; and
the function is a pure function of its input, so repeated invocations on
the same list give identical output. -/
theorem rerank_results_spec (results : List SearchResult) :
    (rerank_results results).Perm results ∧
    List.Sorted rankGE (rerank_results results) ∧
    (∀ r : SearchResult,
      (get_priority r = 10 ↔ ∃ ind ∈ api_indicators, ind <:+: lowerStr r.url) ∧
      (get_priority r = 10 ∨ get_priority r = 1)) ∧
    rerank_results results = rerank_results results := by
  refine ⟨List.perm_insertionSort rankGE results,
    List.sorted_insertionSort rankGE results, ?_, rfl⟩
  intro r
  unfold get_priority
  by_cases h : api_indicators.any fun ind => containsSub ind (lowerStr r.url)
  · rw [if_pos h]
    constructor
    · refine ⟨fun _ => ?_, fun _ => by decide⟩
      rcases List.any_eq_true.mp h with ⟨ind, hmem, hc⟩
      exact ⟨ind, hmem, of_decide_eq_true hc⟩
    · left; decide
  · rw [if_neg h]
    constructor
    · constructor
      · intro habs
        exact absurd habs (by decide)
      · rintro ⟨ind, hmem, hinf⟩
        exact absurd (List.any_eq_true.mpr ⟨ind, hmem, decide_eq_true hinf⟩) h
    · right; decide

/-- Witness for C5 at a concrete input: the sortedness conjunct at a
two-element list, and the tier characterisation applied to an API-indicator
URL. -/
theorem rerank_results_spec_witness :
    List.Sorted rankGE (rerank_results
      [⟨"long title".data, "http://x.com".data, []⟩,
       ⟨"t".data, "http://api.z.com".data, []⟩]) ∧
    get_priority ⟨"t".data, "http://api.z.com".data, []⟩ = 10 :=
  ⟨(rerank_results_spec _).2.1,
    ((rerank_results_spec []).2.2.1 ⟨"t".data, "http://api.z.com".data, []⟩).1.mpr
      ⟨"api.".data, by decide, by decide⟩⟩

/-! ## C8: fatal failure of `run_orchestration` -/

/-- **C8.** `run_orchestration` fails (raises) exactly when no adapter
invocation produced a well-formed `SearchModuleOutput` — in particular an
adapter that returns an empty result list still counts as a success — and
on success the merge/rank input consists of exactly the successful outputs,
with the failed (raising) adapters excluded. -/
theorem run_orchestration_spec (outcomes : List (Except Str SearchModuleOutput))
    (query : Str) :
    ((∃ out, run_orchestration outcomes query = .ok out) ↔
      ∃ o ∈ outcomes, ∃ m, o = .ok m) ∧
    (∀ out, run_orchestration outcomes query = .ok out →
      out.results = rerank_results (merge_and_deduplicate
        (outcomes.filterMap okPart))) := by
  unfold run_orchestration
  by_cases h0 : outcomes.isEmpty
  · rw [if_pos h0]
    have hnil : outcomes = [] := List.isEmpty_iff.mp h0
    subst hnil
    constructor
    · constructor
      · rintro ⟨out, hout⟩
        exact absurd hout (by simp)
      · rintro ⟨o, ho, _⟩
        exact absurd ho (List.not_mem_nil o)
    · intro out hout
      exact absurd hout (by simp)
  · rw [if_neg h0]
    by_cases h1 : outcomes.filterMap okPart = []
    · rw [if_pos h1]
      constructor
      · constructor
        · rintro ⟨out, hout⟩
          exact absurd hout (by simp)
        · rintro ⟨o, ho, m, rfl⟩
          have := List.filterMap_eq_nil_iff.mp h1 _ ho
          simp [okPart] at this
      · intro out hout
        exact absurd hout (by simp)
    · rw [if_neg h1]
      constructor
      · constructor
        · intro _
          rcases List.exists_mem_of_ne_nil _ h1 with ⟨m, hm⟩
          rcases List.mem_filterMap.mp hm with ⟨o, ho, hok⟩
          cases o with
          | ok v => exact ⟨.ok v, ho, v, rfl⟩
          | error e => simp [okPart] at hok
        · intro _
          exact ⟨_, rfl⟩
      · intro out hout
        cases hout
        rfl

/-- Witness for C8 at a concrete input: one raising adapter and one
adapter returning an empty result set — the run still succeeds, and its
ranked results come from the single successful (empty) output. -/
theorem run_orchestration_spec_witness :
    (∃ out, run_orchestration
        [.error "boom".data, .ok ⟨"httpx_search".data, "q".data, []⟩]
        "q".data = .ok out) ∧
    (∀ out, run_orchestration
        [.error "boom".data, .ok ⟨"httpx_search".data, "q".data, []⟩]
        "q".data = .ok out → out.results = []) := by
  have h := run_orchestration_spec
    [.error "boom".data, .ok ⟨"httpx_search".data, "q".data, []⟩] "q".data
  refine ⟨h.1.mpr ⟨.ok ⟨"httpx_search".data, "q".data, []⟩, by decide,
    ⟨"httpx_search".data, "q".data, []⟩, rfl⟩, ?_⟩
  intro out hout
  have := h.2 out hout
  simpa using this

/-! ## C3: synthesizer retry/backoff -/

theorem synthesizeLoop_success (script : Nat → LLMOutcome) (max_retries : Nat) :
    ∀ N rc s, (∀ k, k < N → transientOutcome (script (rc + k))) →
      script (rc + N) = .success s → rc + N ≤ max_retries →
      synthesizeLoop script max_retries rc =
        ⟨(List.range N).map fun k => backoffDelay (rc + k), .ok (some (pyStrip s))⟩ := by
  intro N
  induction N with
  | zero =>
    intro rc s _ hsucc hle
    simp only [Nat.add_zero] at hsucc
    rw [synthesizeLoop]
    simp [show rc ≤ max_retries by omega, hsucc]
  | succ n ih =>
    intro rc s htrans hsucc hle
    have hlt : rc < max_retries := by omega
    have hrec := ih (rc + 1) s
      (fun k hk => by
        have := htrans (k + 1) (by omega)
        simpa [Nat.add_assoc, Nat.add_comm 1 k] using this)
      (by
        have heq : rc + 1 + n = rc + (n + 1) := by omega
        rw [heq]; exact hsucc)
      (by omega)
    have hdelays : (List.range (n + 1)).map (fun k => backoffDelay (rc + k)) =
        backoffDelay rc :: (List.range n).map fun k => backoffDelay (rc + 1 + k) := by
      rw [List.range_succ_eq_map, List.map_cons, List.map_map]
      refine congrArg₂ _ (by rw [Nat.add_zero]) ?_
      refine List.map_congr_left fun k _ => ?_
      simp only [Function.comp]
      congr 1
      omega
    rcases htrans 0 (by omega) with ⟨m, hm⟩ | ⟨m, hm⟩ <;>
      rw [Nat.add_zero] at hm <;>
      rw [synthesizeLoop] <;>
      simp [show rc ≤ max_retries by omega, hm, hlt, hrec, hdelays]

theorem synthesizeLoop_exhausted_aux (script : Nat → LLMOutcome) (max_retries : Nat) :
    ∀ fuel rc, max_retries - rc ≤ fuel → rc ≤ max_retries →
      (∀ k, rc ≤ k → k ≤ max_retries → transientOutcome (script k)) →
      ∃ m, (synthesizeLoop script max_retries rc).result = .error m := by
  intro fuel
  induction fuel with
  | zero =>
    intro rc hfuel hrc htrans
    rcases htrans rc le_rfl hrc with ⟨m, hm⟩ | ⟨m, hm⟩
    · refine ⟨"LLM rate limit exceeded after retries: ".data ++ m, ?_⟩
      rw [synthesizeLoop]
      simp [hrc, hm, show ¬ rc < max_retries by omega]
    · refine ⟨"LLM API connection failed after retries: ".data ++ m, ?_⟩
      rw [synthesizeLoop]
      simp [hrc, hm, show ¬ rc < max_retries by omega]
  | succ n ih =>
    intro rc hfuel hrc htrans
    by_cases hlt : rc < max_retries
    · obtain ⟨m2, hm2⟩ := ih (rc + 1) (by omega) (by omega)
        (fun k hk1 hk2 => htrans k (by omega) hk2)
      rcases htrans rc le_rfl hrc with ⟨m, hm⟩ | ⟨m, hm⟩ <;>
        refine ⟨m2, ?_⟩ <;>
        rw [synthesizeLoop] <;>
        simp [hrc, hm, hlt, hm2]
    · rcases htrans rc le_rfl hrc with ⟨m, hm⟩ | ⟨m, hm⟩
      · refine ⟨"LLM rate limit exceeded after retries: ".data ++ m, ?_⟩
        rw [synthesizeLoop]
        simp [hrc, hm, hlt]
      · refine ⟨"LLM API connection failed after retries: ".data ++ m, ?_⟩
        rw [synthesizeLoop]
        simp [hrc, hm, hlt]

/-- **C3.** For the synthesizer's retry loop with configured cap
`max_retries`: (a) a run of `N ≤ max_retries` transient errors (rate limit
or connection failure) followed by a success returns the (stripped)
successful answer after exactly `N` retries whose sleep delays are
`min(16, 2^k)` seconds for `k = 0..N-1` — strictly increasing and then
capped at 16; (b) transient errors on every attempt up to the cap make the
call raise a `SearchAgentError` to the caller; (c) an authentication error
raises immediately, with zero retries and zero sleeps. -/
theorem synthesize_answer_retry_spec (script : Nat → LLMOutcome) (max_retries : Nat) :
    (∀ N s, (∀ k, k < N → transientOutcome (script k)) → script N = .success s →
      N ≤ max_retries →
      synthesize_answer script max_retries =
        ⟨(List.range N).map backoffDelay, .ok (some (pyStrip s))⟩) ∧
    ((∀ k, k ≤ max_retries → transientOutcome (script k)) →
      ∃ m, (synthesize_answer script max_retries).result = .error m) ∧
    (∀ m, script 0 = .authError m →
      synthesize_answer script max_retries =
        ⟨[], .error ("LLM authentication failed: ".data ++ m)⟩) := by
  refine ⟨?_, ?_, ?_⟩
  · intro N s htrans hsucc hle
    have h := synthesizeLoop_success script max_retries N 0 s
      (fun k hk => by simpa using htrans k hk)
      (by simpa using hsucc) (by omega)
    simpa using h
  · intro htrans
    exact synthesizeLoop_exhausted_aux script max_retries max_retries 0 (by omega)
      (by omega) (fun k _ hk2 => htrans k hk2)
  · intro m hm
    unfold synthesize_answer
    rw [synthesizeLoop]
    simp [hm]

/-- Witness for C3 at a concrete script: two rate-limit errors and then a
success, under the default cap 3 — two retries with delays 1 and 2 seconds
and the stripped answer. -/
theorem synthesize_answer_retry_spec_witness :
    synthesize_answer
      (fun k => if k < 2 then .rateLimit "r".data else .success " ans ".data) 3 =
      ⟨[1, 2], .ok (some "ans".data)⟩ := by
  have h := (synthesize_answer_retry_spec
      (fun k => if k < 2 then .rateLimit "r".data else .success " ans ".data) 3).1
    2 " ans ".data
    (fun k hk => Or.inl ⟨"r".data, by simp [hk]⟩)
    (by decide) (by omega)
  exact h.trans (by decide)

/-! ## C6: evaluator parse-failure fallback -/

/-- The parse-error marker that the claim requires in the feedback text. -/
theorem parse_error_marker_in_msg (e out : Str) :
    ("Error parsing LLM evaluation output".data <+:
      "Error parsing LLM evaluation output: No valid JSON found. Output: ".data ++ out) ∧
    ("Error parsing LLM evaluation output".data <+:
      "Error parsing LLM evaluation output: ".data ++ e ++ ". Output: ".data ++ out) := by
  constructor
  · exact (by decide : "Error parsing LLM evaluation output".data <+:
      "Error parsing LLM evaluation output: No valid JSON found. Output: ".data).trans
      (List.prefix_append _ _)
  · exact (by decide : "Error parsing LLM evaluation output".data <+:
      "Error parsing LLM evaluation output: ".data).trans (List.prefix_append _ _)

theorem evalLoop_parse_failure (env : EvalEnv) (max_retries : Nat) (out e : Str)
    (hs : env.script 0 = .success out)
    (hp : env.parseJson out = .error e)
    (hf : env.extractFenced out = none ∨
      ∃ cand e2, env.extractFenced out = some cand ∧ env.parseJson cand = .error e2) :
    ∃ fb, evalLoop env max_retries 0 initEvalResults =
        { initEvalResults with llm_feedback := some fb } ∧
      "Error parsing LLM evaluation output".data <+: fb := by
  rcases hf with hnone | ⟨cand, e2, hcand, he2⟩
  · refine ⟨"Error parsing LLM evaluation output: No valid JSON found. Output: ".data
      ++ out, ?_, (parse_error_marker_in_msg e out).1⟩
    rw [evalLoop]
    simp [hs, hp, hnone]
  · refine ⟨"Error parsing LLM evaluation output: ".data ++ e2 ++ ". Output: ".data
      ++ out, ?_, (parse_error_marker_in_msg e2 out).2⟩
    rw [evalLoop]
    simp [hs, hp, hcand, he2]

theorem nlpStage_preserves (answer : Str) (nlp : NlpOutcome) (res : EvalResults)
    (fb : Str) (hfb : res.llm_feedback = some fb) :
    (nlpStage answer nlp res).factual_consistency_score = res.factual_consistency_score ∧
    (nlpStage answer nlp res).relevance_score = res.relevance_score ∧
    (nlpStage answer nlp res).completeness_score = res.completeness_score ∧
    (nlpStage answer nlp res).conciseness_score = res.conciseness_score ∧
    ∃ fb2, (nlpStage answer nlp res).llm_feedback = some fb2 ∧ fb <+: fb2 := by
  unfold nlpStage
  by_cases h : answer = [] ∨ answer.length < 10
  · rw [if_pos h]
    exact ⟨rfl, rfl, rfl, rfl, fb, hfb, List.prefix_rfl⟩
  · rw [if_neg h]
    cases nlp with
    | sim score => exact ⟨rfl, rfl, rfl, rfl, fb, hfb, List.prefix_rfl⟩
    | noVectors => exact ⟨rfl, rfl, rfl, rfl, fb, hfb, List.prefix_rfl⟩
    | modelNotFound =>
      exact ⟨rfl, rfl, rfl, rfl, fb ++ spacyMissingMsg,
        by simp [hfb], List.prefix_append _ _⟩
    | otherExc m =>
      exact ⟨rfl, rfl, rfl, rfl, fb ++ " NLP evaluation failed: ".data ++ m,
        by simp [hfb], (List.prefix_append _ _).trans (List.prefix_append _ _)⟩

/-- **C6.** If the evaluation LLM call succeeds but its response is neither
valid JSON nor contains a recoverable JSON object inside a markdown fenced
block, then `evaluate_answer_quality` returns all four scores at the
failure default `0.0`, its feedback text carries the parse-error
description `"Error parsing LLM evaluation output"` as a prefix, and the
function returns normally (no exception propagates: the embedding is a
total function covering every environment outcome).  The synthesized
answer is an input only — evaluation computes a separate record and never
modifies it. -/
theorem evaluate_answer_quality_parse_failure (env : EvalEnv) (answer : Str)
    (max_retries : Nat) (out e : Str)
    (hs : env.script 0 = .success out)
    (hp : env.parseJson out = .error e)
    (hf : env.extractFenced out = none ∨
      ∃ cand e2, env.extractFenced out = some cand ∧ env.parseJson cand = .error e2) :
    (evaluate_answer_quality env answer max_retries).factual_consistency_score = 0 ∧
    (evaluate_answer_quality env answer max_retries).relevance_score = 0 ∧
    (evaluate_answer_quality env answer max_retries).completeness_score = 0 ∧
    (evaluate_answer_quality env answer max_retries).conciseness_score = 0 ∧
    ∃ fb, (evaluate_answer_quality env answer max_retries).llm_feedback = some fb ∧
      "Error parsing LLM evaluation output".data <+: fb := by
  obtain ⟨fb, hloop, hpfx⟩ := evalLoop_parse_failure env max_retries out e hs hp hf
  unfold evaluate_answer_quality
  rw [hloop]
  obtain ⟨h1, h2, h3, h4, fb2, hfb2, hpre⟩ := nlpStage_preserves answer env.nlp
    { initEvalResults with llm_feedback := some fb } fb rfl
  exact ⟨h1, h2, h3, h4, fb2, hfb2, hpfx.trans hpre⟩

/-- Witness for C6 at a concrete environment: the LLM returns non-JSON
text, no fenced block is recoverable, and the spaCy model is missing — the
scores stay at 0 and the feedback keeps the parse-error marker. -/
theorem evaluate_answer_quality_parse_failure_witness :
    (evaluate_answer_quality
      ⟨fun _ => .success "not json".data, fun _ => .error "Expecting value".data,
        fun _ => none, .modelNotFound⟩
      "a synthesized answer".data 3).factual_consistency_score = 0 ∧
    ∃ fb, (evaluate_answer_quality
      ⟨fun _ => .success "not json".data, fun _ => .error "Expecting value".data,
        fun _ => none, .modelNotFound⟩
      "a synthesized answer".data 3).llm_feedback = some fb ∧
      "Error parsing LLM evaluation output".data <+: fb := by
  have h := evaluate_answer_quality_parse_failure
    ⟨fun _ => .success "not json".data, fun _ => .error "Expecting value".data,
      fun _ => none, .modelNotFound⟩
    "a synthesized answer".data 3 "not json".data "Expecting value".data
    rfl rfl (Or.inl rfl)
  exact ⟨h.1, h.2.2.2.2⟩

/-! ## C10: URL normalization -/

theorem drop_takeWhile_len (p : Char → Bool) (l : Str) :
    l.drop (l.takeWhile p).length = l.dropWhile p := by
  induction l with
  | nil => rfl
  | cons a t ih =>
    by_cases h : p a
    · simp [List.takeWhile_cons, List.dropWhile_cons, h, ih]
    · simp [List.takeWhile_cons, List.dropWhile_cons, h]

theorem dropWhile_head_cases (p : Char → Bool) (l : Str) :
    l.dropWhile p = [] ∨ ∃ c t, l.dropWhile p = c :: t ∧ p c = false := by
  induction l with
  | nil => exact Or.inl rfl
  | cons a t ih =>
    by_cases h : p a
    · simpa [List.dropWhile_cons, h] using ih
    · exact Or.inr ⟨a, t, by simp [List.dropWhile_cons, h], by simp [h]⟩

theorem dropWhile_idem (p : Char → Bool) (l : Str) :
    (l.dropWhile p).dropWhile p = l.dropWhile p := by
  rcases dropWhile_head_cases p l with h | ⟨c, t, h, hc⟩
  · rw [h]; rfl
  · rw [h, List.dropWhile_cons, hc]
    simp

theorem rstripSlash_isPre (s : Str) : rstripSlash s <+: s := by
  unfold rstripSlash
  have h1 : s.reverse.dropWhile (· = '/') <:+ s.reverse := List.dropWhile_suffix _
  have h2 := List.reverse_prefix.mpr h1
  rwa [List.reverse_reverse] at h2

theorem rstripSlash_getLast (s : Str) : (rstripSlash s).getLast? ≠ some '/' := by
  unfold rstripSlash
  rw [List.getLast?_reverse]
  rcases dropWhile_head_cases (· = '/') s.reverse with h | ⟨c, t, h, hc⟩
  · rw [h]; simp
  · rw [h]
    simp only [List.head?_cons, ne_eq, Option.some.injEq]
    intro hcc
    rw [hcc] at hc
    simp at hc

theorem rstripSlash_idem (s : Str) : rstripSlash (rstripSlash s) = rstripSlash s := by
  unfold rstripSlash
  rw [List.reverse_reverse, dropWhile_idem]

theorem urlparse_scheme_eq (w : Str) : (urlparse w).scheme = (splitScheme w).1 := rfl

theorem urlparse_netloc_eq (w : Str) :
    (urlparse w).netloc = (splitNetloc (splitScheme w).2).1 := rfl

theorem urlparse_path_eq (w : Str) :
    (urlparse w).path =
      ((splitAtChar '#' (splitNetloc (splitScheme w).2).2).1).takeWhile (· ≠ '?') := rfl

theorem splitNetloc_fst_then (u : Str) (h : u.take 2 = ['/', '/']) :
    (splitNetloc u).1 = (u.drop 2).takeWhile netKeep := by
  unfold splitNetloc
  rw [if_pos h]

theorem splitNetloc_fst_else (u : Str) (h : ¬ u.take 2 = ['/', '/']) :
    (splitNetloc u).1 = [] := by
  unfold splitNetloc
  rw [if_neg h]

theorem splitNetloc_snd_then (u : Str) (h : u.take 2 = ['/', '/']) :
    (splitNetloc u).2 = u.drop (2 + ((u.drop 2).takeWhile netKeep).length) := by
  unfold splitNetloc
  rw [if_pos h]

/-- Characters of the parsed netloc never include `'/'`, `'?'` or `'#'`. -/
theorem urlparse_netloc_chars (w : Str) :
    ∀ c ∈ (urlparse w).netloc, c ≠ '/' ∧ c ≠ '?' ∧ c ≠ '#' := by
  intro c hc
  rw [urlparse_netloc_eq] at hc
  by_cases h : ((splitScheme w).2).take 2 = ['/', '/']
  · rw [splitNetloc_fst_then _ h] at hc
    have h2 := List.mem_takeWhile_imp hc
    unfold netKeep at h2
    have h3 : (¬c = '/' ∧ ¬c = '?') ∧ ¬c = '#' := by simpa using h2
    exact ⟨h3.1.1, h3.1.2, h3.2⟩
  · rw [splitNetloc_fst_else _ h] at hc
    exact absurd hc (List.not_mem_nil c)

/-- Characters of the parsed path never include `'?'` or `'#'`. -/
theorem urlparse_path_chars (w : Str) :
    ∀ c ∈ (urlparse w).path, c ≠ '?' ∧ c ≠ '#' := by
  intro c hc
  rw [urlparse_path_eq] at hc
  have hq := List.mem_takeWhile_imp hc
  have hc2 : c ∈ (splitAtChar '#' (splitNetloc (splitScheme w).2).2).1 :=
    (List.takeWhile_sublist _).subset hc
  have hh := List.mem_takeWhile_imp hc2
  exact ⟨by simpa using hq, by simpa using hh⟩

/-- When a netloc was recognised, the parsed path is empty or starts with
`'/'`. -/
theorem urlparse_path_head (w : Str) (hhost : (urlparse w).netloc ≠ []) :
    (urlparse w).path = [] ∨ (urlparse w).path.head? = some '/' := by
  by_cases h : ((splitScheme w).2).take 2 = ['/', '/']
  · have hsnd : (splitNetloc (splitScheme w).2).2 =
        ((splitScheme w).2).drop
          (2 + ((((splitScheme w).2).drop 2).takeWhile netKeep).length) :=
      splitNetloc_snd_then _ h
    have hdw : (splitNetloc (splitScheme w).2).2 =
        (((splitScheme w).2).drop 2).dropWhile netKeep := by
      rw [hsnd, ← List.drop_drop, drop_takeWhile_len]
    rcases dropWhile_head_cases netKeep (((splitScheme w).2).drop 2) with hnil | ⟨c, t, hct, hcf⟩
    · left
      rw [urlparse_path_eq]
      rw [hdw, hnil] at *
      simp [splitAtChar]
    · have hcs : c = '/' ∨ c = '?' ∨ c = '#' := by
        by_contra hno
        push_neg at hno
        unfold netKeep at hcf
        simp [hno.1, hno.2.1, hno.2.2] at hcf
      rw [urlparse_path_eq]
      rw [hdw, hct]
      rcases hcs with rfl | rfl | rfl
      · right
        have h1 : (splitAtChar '#' ('/' :: t)).1 = '/' :: t.takeWhile (· ≠ '#') := by
          simp [splitAtChar, List.takeWhile_cons]
        rw [h1, List.takeWhile_cons]
        simp
      · left
        have h1 : (splitAtChar '#' ('?' :: t)).1 = '?' :: t.takeWhile (· ≠ '#') := by
          simp [splitAtChar, List.takeWhile_cons]
        rw [h1, List.takeWhile_cons]
        simp
      · left
        have h1 : (splitAtChar '#' ('#' :: t)).1 = [] := by
          simp [splitAtChar, List.takeWhile_cons]
        rw [h1]
        simp
  · exfalso
    apply hhost
    rw [urlparse_netloc_eq, splitNetloc_fst_else _ h]

/-- Every character of the parsed netloc occurs in the input. -/
theorem urlparse_netloc_mem (w : Str) : ∀ c ∈ (urlparse w).netloc, c ∈ w := by
  intro c hc
  rw [urlparse_netloc_eq] at hc
  by_cases h : ((splitScheme w).2).take 2 = ['/', '/']
  · rw [splitNetloc_fst_then _ h] at hc
    have h1 : c ∈ ((splitScheme w).2).drop 2 := (List.takeWhile_sublist _).subset hc
    have h2 : c ∈ (splitScheme w).2 := (List.drop_sublist _ _).subset h1
    unfold splitScheme at h2
    by_cases hs : schemePre w ≠ w ∧ schemePre w ≠ [] ∧ ((schemePre w).headD ' ').isAlpha ∧
        (schemePre w).all isSchemeChar
    · rw [if_pos hs] at h2
      exact (List.drop_sublist _ _).subset h2
    · rwa [if_neg hs] at h2
  · rw [splitNetloc_fst_else _ h] at hc
    exact absurd hc (List.not_mem_nil c)

/-- Every character of the parsed path occurs in the input. -/
theorem urlparse_path_mem (w : Str) : ∀ c ∈ (urlparse w).path, c ∈ w := by
  intro c hc
  rw [urlparse_path_eq] at hc
  have h1 : c ∈ (splitAtChar '#' (splitNetloc (splitScheme w).2).2).1 :=
    (List.takeWhile_sublist _).subset hc
  have h2 : c ∈ (splitNetloc (splitScheme w).2).2 :=
    (List.takeWhile_sublist _).subset h1
  have h3 : c ∈ (splitScheme w).2 := by
    by_cases h : ((splitScheme w).2).take 2 = ['/', '/']
    · rw [splitNetloc_snd_then _ h] at h2
      exact (List.drop_sublist _ _).subset h2
    · unfold splitNetloc at h2
      rwa [if_neg h] at h2
  unfold splitScheme at h3
  by_cases hs : schemePre w ≠ w ∧ schemePre w ≠ [] ∧ ((schemePre w).headD ' ').isAlpha ∧
      (schemePre w).all isSchemeChar
  · rw [if_pos hs] at h3
    exact (List.drop_sublist _ _).subset h3
  · rwa [if_neg hs] at h3

/-- Characters of a lower-cased string are fixed by `lowerChar`. -/
theorem lowerStr_mem_fixed (u : Str) : ∀ c ∈ lowerStr u, lowerChar c = c := by
  intro c hc
  rcases List.mem_map.mp hc with ⟨c0, _, rfl⟩
  exact lowerChar_idem c0

theorem takeWhile_of_all (p : Char → Bool) (l : Str) (h : ∀ c ∈ l, p c = true) :
    l.takeWhile p = l :=
  calc l.takeWhile p = (l ++ []).takeWhile p := by rw [List.append_nil]
    _ = l ++ ([] : Str).takeWhile p := List.takeWhile_append_of_pos h
    _ = l := by simp

theorem splitScheme_of_clean (s rest : Str)
    (h1 : ∀ c ∈ s, c ≠ ':')
    (h2 : s ≠ [])
    (h3 : (s.headD ' ').isAlpha = true)
    (h4 : s.all isSchemeChar = true) :
    splitScheme (s ++ ':' :: rest) = (lowerStr s, rest) := by
  have hpre : schemePre (s ++ ':' :: rest) = s := by
    unfold schemePre
    rw [List.takeWhile_append_of_pos (fun c hc => by simpa using h1 c hc)]
    simp [List.takeWhile_cons]
  have hne : s ≠ s ++ ':' :: rest := by
    intro heq
    apply_fun List.length at heq
    simp at heq
  unfold splitScheme
  rw [hpre, if_pos ⟨hne, h2, h3, h4⟩]
  have hlen : s.length + 1 = (s ++ [':']).length := by simp
  have happ : s ++ ':' :: rest = (s ++ [':']) ++ rest := by simp
  rw [happ, hlen, List.drop_left]

theorem splitNetloc_clean (n q : Str)
    (hn : ∀ c ∈ n, netKeep c = true)
    (hq0 : q.takeWhile netKeep = []) :
    splitNetloc ('/' :: '/' :: (n ++ q)) = (n, q) := by
  unfold splitNetloc
  rw [if_pos (show List.take 2 ('/' :: '/' :: (n ++ q)) = ['/', '/'] from rfl)]
  have hdrop2 : ('/' :: '/' :: (n ++ q)).drop 2 = n ++ q := rfl
  have htw : (n ++ q).takeWhile netKeep = n := by
    rw [List.takeWhile_append_of_pos hn, hq0, List.append_nil]
  rw [hdrop2, htw]
  have happ : '/' :: '/' :: (n ++ q) = (['/', '/'] ++ n) ++ q := by simp
  have hlen : 2 + n.length = (['/', '/'] ++ n).length := by
    simp
    omega
  rw [happ, hlen, List.drop_left]

theorem splitAtChar_no_occ (m : Char) (u : Str) (h : ∀ c ∈ u, ¬ c = m) :
    splitAtChar m u = (u, []) := by
  have htw : u.takeWhile (· ≠ m) = u :=
    takeWhile_of_all _ u (fun c hc => by simpa using h c hc)
  unfold splitAtChar
  rw [htw, if_pos rfl]

/-- Re-parsing a rebuilt `scheme://netloc+path` URL recovers exactly its
components, with empty query and fragment. -/
theorem urlparse_reparse (s n q : Str)
    (h1 : ∀ c ∈ s, c ≠ ':')
    (h2 : s ≠ [])
    (h3 : (s.headD ' ').isAlpha = true)
    (h4 : s.all isSchemeChar = true)
    (h5 : lowerStr s = s)
    (hn : ∀ c ∈ n, netKeep c = true)
    (hq0 : q.takeWhile netKeep = [])
    (hq1 : ∀ c ∈ q, ¬ c = '#')
    (hq2 : ∀ c ∈ q, ¬ c = '?') :
    urlparse (s ++ "://".data ++ n ++ q) = ⟨s, n, q, [], []⟩ := by
  have hv : s ++ "://".data ++ n ++ q = s ++ ':' :: ('/' :: '/' :: (n ++ q)) := by
    show s ++ [':', '/', '/'] ++ n ++ q = _
    simp
  rw [hv]
  have hss : splitScheme (s ++ ':' :: ('/' :: '/' :: (n ++ q))) =
      (s, '/' :: '/' :: (n ++ q)) := by
    rw [splitScheme_of_clean s _ h1 h2 h3 h4, h5]
  have hsn := splitNetloc_clean n q hn hq0
  have hsf := splitAtChar_no_occ '#' q hq1
  have hsq := splitAtChar_no_occ '?' q hq2
  unfold urlparse
  simp only [hss, hsn, hsf, hsq]

/-- **C10.** For every URL string whose lower-casing parses with an `http`
or `https` scheme and a non-empty host, `normalize_url` returns (without
raising — the embedded function is total) the lower-cased
`scheme://host+path` with trailing slashes stripped and query and fragment
removed: the result is its own lower-casing, contains no `'#'` or `'?'`,
does not end in `'/'`, and `normalize_url` is idempotent on it. -/
theorem normalize_url_spec (u : Str)
    (hscheme : (urlparse (lowerStr u)).scheme = "http".data ∨
               (urlparse (lowerStr u)).scheme = "https".data)
    (hhost : (urlparse (lowerStr u)).netloc ≠ []) :
    normalize_url u = (urlparse (lowerStr u)).scheme ++ "://".data ++
        (urlparse (lowerStr u)).netloc ++ rstripSlash ((urlparse (lowerStr u)).path) ∧
    lowerStr (normalize_url u) = normalize_url u ∧
    (∀ c ∈ normalize_url u, c ≠ '#' ∧ c ≠ '?') ∧
    (normalize_url u).getLast? ≠ some '/' ∧
    normalize_url (normalize_url u) = normalize_url u := by
  have hshape : normalize_url u = (urlparse (lowerStr u)).scheme ++ "://".data ++
      (urlparse (lowerStr u)).netloc ++ rstripSlash ((urlparse (lowerStr u)).path) := rfl
  set w := lowerStr u with hw
  set s := (urlparse w).scheme with hsdef
  set n := (urlparse w).netloc with hndef
  set q := rstripSlash ((urlparse w).path) with hqdef
  have hn_chars : ∀ c ∈ n, c ≠ '/' ∧ c ≠ '?' ∧ c ≠ '#' := urlparse_netloc_chars w
  have hq_pre : q <+: (urlparse w).path := rstripSlash_isPre _
  have hq_chars : ∀ c ∈ q, c ≠ '?' ∧ c ≠ '#' := fun c hc =>
    urlparse_path_chars w c (hq_pre.subset hc)
  have hq_head : q = [] ∨ q.head? = some '/' := by
    rcases urlparse_path_head w hhost with hnil | hhd
    · left
      rw [hqdef, hnil]
      rfl
    · by_cases hqe : q = []
      · exact Or.inl hqe
      · right
        obtain ⟨t, ht⟩ := hq_pre
        cases hq : q with
        | nil => exact absurd hq hqe
        | cons a t2 =>
          rw [hq] at ht
          rw [← ht] at hhd
          simp at hhd
          simp [hhd]
  have hn_net : ∀ c ∈ n, netKeep c = true := fun c hc => by
    obtain ⟨a, b, cc⟩ := hn_chars c hc
    simp [netKeep, a, b, cc]
  have hq0 : q.takeWhile netKeep = [] := by
    rcases hq_head with hqe | hqh
    · rw [hqe]; rfl
    · cases hq : q with
      | nil => rfl
      | cons a t2 =>
        rw [hq] at hqh
        simp at hqh
        rw [hqh, List.takeWhile_cons]
        simp [netKeep]
  have hn_fix : ∀ c ∈ n, lowerChar c = c := fun c hc =>
    lowerStr_mem_fixed u c (urlparse_netloc_mem w c hc)
  have hq_fix : ∀ c ∈ q, lowerChar c = c := fun c hc =>
    lowerStr_mem_fixed u c (urlparse_path_mem w c (hq_pre.subset hc))
  have hs1 : ∀ c ∈ s, c ≠ ':' := by rcases hscheme with hsh | hsh <;> rw [hsh] <;> decide
  have hs2 : s ≠ [] := by rcases hscheme with hsh | hsh <;> rw [hsh] <;> decide
  have hs3 : (s.headD ' ').isAlpha = true := by
    rcases hscheme with hsh | hsh <;> rw [hsh] <;> decide
  have hs4 : s.all isSchemeChar = true := by
    rcases hscheme with hsh | hsh <;> rw [hsh] <;> decide
  have hs5 : lowerStr s = s := by rcases hscheme with hsh | hsh <;> rw [hsh] <;> decide
  have hs_chars : ∀ c ∈ s, c ≠ '#' ∧ c ≠ '?' := by
    rcases hscheme with hsh | hsh <;> rw [hsh] <;> decide
  have e2 : List.map lowerChar "://".data = "://".data := by decide
  have e3 : List.map lowerChar n = n :=
    (List.map_congr_left fun c hc => hn_fix c hc).trans (List.map_id n)
  have e4 : List.map lowerChar q = q :=
    (List.map_congr_left fun c hc => hq_fix c hc).trans (List.map_id q)
  have hlow : lowerStr (s ++ "://".data ++ n ++ q) = s ++ "://".data ++ n ++ q := by
    show List.map lowerChar (s ++ "://".data ++ n ++ q) = _
    simp only [List.map_append]
    rw [show List.map lowerChar s = s from hs5, e2, e3, e4]
  have hreparse : urlparse (s ++ "://".data ++ n ++ q) = ⟨s, n, q, [], []⟩ :=
    urlparse_reparse s n q hs1 hs2 hs3 hs4 hs5 hn_net hq0
      (fun c hc => (hq_chars c hc).2) (fun c hc => (hq_chars c hc).1)
  refine ⟨rfl, ?_, ?_, ?_, ?_⟩
  · rw [hshape]
    exact hlow
  · rw [hshape]
    intro c hc
    simp only [List.mem_append] at hc
    rcases hc with ((hc | hc) | hc) | hc
    · exact hs_chars c hc
    · revert c
      decide
    · obtain ⟨_, b, cc⟩ := hn_chars c hc
      exact ⟨cc, b⟩
    · obtain ⟨b, cc⟩ := hq_chars c hc
      exact ⟨cc, b⟩
  · rw [hshape]
    by_cases hqe : q = []
    · rw [hqe, List.append_nil]
      rw [List.getLast?_append_of_ne_nil _ hhost]
      intro habs
      exact (hn_chars '/' (List.mem_of_mem_getLast? habs)).1 rfl
    · rw [List.getLast?_append_of_ne_nil _ hqe]
      exact rstripSlash_getLast _
  · rw [hshape]
    show normalize_url (s ++ "://".data ++ n ++ q) = _
    unfold normalize_url
    rw [show lowerStr (s ++ "://".data ++ n ++ q) = s ++ "://".data ++ n ++ q from hlow,
      hreparse]
    show s ++ "://".data ++ n ++ rstripSlash q = _
    rw [hqdef, rstripSlash_idem]

/-- Witness for C10 at a concrete URL: `HTTP://Example.COM/Path/?q=1#f`
normalizes to `http://example.com/path`, and normalizing again is a fixed
point. -/
theorem normalize_url_spec_witness :
    normalize_url "HTTP://Example.COM/Path/?q=1#f".data =
        "http://example.com/path".data ∧
    normalize_url (normalize_url "HTTP://Example.COM/Path/?q=1#f".data) =
      normalize_url "HTTP://Example.COM/Path/?q=1#f".data := by
  have h := normalize_url_spec "HTTP://Example.COM/Path/?q=1#f".data
    (Or.inl (by decide)) (by decide)
  exact ⟨by decide, h.2.2.2.2⟩

/-! ## C4: URL selection and the domain-diversity cap -/

/-- The parsed netloc is a contiguous substring of the URL string, so the
source's substring test `domain in u` over-approximates the per-netloc
count. -/
theorem urlparse_netloc_infixOf (u : Str) : (urlparse u).netloc <:+: u := by
  rw [urlparse_netloc_eq]
  by_cases h : ((splitScheme u).2).take 2 = ['/', '/']
  · rw [splitNetloc_fst_then _ h]
    have h1 : (((splitScheme u).2).drop 2).takeWhile netKeep <+: ((splitScheme u).2).drop 2 :=
      List.takeWhile_prefix netKeep
    have h2 : ((splitScheme u).2).drop 2 <:+ (splitScheme u).2 := List.drop_suffix 2 _
    have h3 : (splitScheme u).2 <:+ u := by
      unfold splitScheme
      split
      · exact List.drop_suffix _ u
      · exact List.suffix_rfl
    exact (h1.isInfix.trans h2.isInfix).trans h3.isInfix
  · rw [splitNetloc_fst_else _ h]
    exact List.nil_infix

theorem containsSub_of_netloc (u : Str) (d : Str) (h : (urlparse u).netloc = d) :
    containsSub d u = true :=
  decide_eq_true (h ▸ urlparse_netloc_infixOf u)

theorem countP_netloc_le_countP_sub (sel : List Str) (d : Str) :
    sel.countP (fun x => decide ((urlparse x).netloc = d)) ≤
      sel.countP (fun x => containsSub d x) :=
  List.countP_mono_left fun x _ hx => containsSub_of_netloc x d (of_decide_eq_true hx)

theorem selectLoop_netloc_cap (results : List SearchResult) (k : Nat) :
    ∀ st : SelState,
      (∀ u ∈ st.selected, (urlparse u).netloc ∈ st.seen_domains) →
      (∀ d, st.selected.countP (fun x => decide ((urlparse x).netloc = d)) ≤ 2) →
      ∀ d, (selectLoop results k st).countP
        (fun x => decide ((urlparse x).netloc = d)) ≤ 2 := by
  induction results with
  | nil => intro st _ inv2 d; exact inv2 d
  | cons r rest ih =>
    intro st inv1 inv2 d
    unfold selectLoop
    by_cases h0 : r.url = []
    · rw [if_pos h0]; exact ih st inv1 inv2 d
    · rw [if_neg h0]
      by_cases h1 : r.url ∈ st.seen_urls
      · rw [if_pos h1]; exact ih st inv1 inv2 d
      · rw [if_neg h1]
        by_cases h2 : (urlparse r.url).netloc ∈ st.seen_domains ∧
            2 ≤ st.selected.countP (fun u => containsSub (urlparse r.url).netloc u)
        · rw [if_pos h2]; exact ih st inv1 inv2 d
        · rw [if_neg h2]
          have hcnt : st.selected.countP
              (fun x => decide ((urlparse x).netloc = (urlparse r.url).netloc)) ≤ 1 := by
            by_contra hgt
            push_neg at hgt
            apply h2
            constructor
            · have hpos : 0 < st.selected.countP
                  (fun x => decide ((urlparse x).netloc = (urlparse r.url).netloc)) := by
                omega
              obtain ⟨u, hu, hud⟩ := List.countP_pos_iff.mp hpos
              have := inv1 u hu
              rwa [of_decide_eq_true hud] at this
            · calc 2 ≤ st.selected.countP
                    (fun x => decide ((urlparse x).netloc = (urlparse r.url).netloc)) := hgt
                _ ≤ _ := countP_netloc_le_countP_sub st.selected _
          have inv1' : ∀ u ∈ st.selected ++ [r.url],
              (urlparse u).netloc ∈ (urlparse r.url).netloc :: st.seen_domains := by
            intro u hu
            rcases List.mem_append.mp hu with hu | hu
            · exact List.mem_cons_of_mem _ (inv1 u hu)
            · rcases List.mem_singleton.mp hu with rfl
              exact List.mem_cons_self _ _
          have inv2' : ∀ d2, (st.selected ++ [r.url]).countP
              (fun x => decide ((urlparse x).netloc = d2)) ≤ 2 := by
            intro d2
            rw [List.countP_append]
            by_cases hd2 : (urlparse r.url).netloc = d2
            · have : ([r.url] : List Str).countP
                  (fun x => decide ((urlparse x).netloc = d2)) ≤ 1 :=
                List.countP_le_length _
              subst hd2
              omega
            · have hz : ([r.url] : List Str).countP
                  (fun x => decide ((urlparse x).netloc = d2)) = 0 := by
                simp [List.countP_cons, hd2]
              rw [hz]
              have := inv2 d2
              omega
          by_cases h3 : k ≤ (st.selected ++ [r.url]).length
          · rw [if_pos h3]
            exact inv2' d
          · rw [if_neg h3]
            exact ih ⟨st.selected ++ [r.url], r.url :: st.seen_urls,
              (urlparse r.url).netloc :: st.seen_domains⟩ inv1' inv2' d

theorem selectLoop_length (results : List SearchResult) (k : Nat) :
    ∀ st : SelState, st.selected.length < k →
      (selectLoop results k st).length ≤ k := by
  induction results with
  | nil => intro st h; exact h.le
  | cons r rest ih =>
    intro st h
    unfold selectLoop
    by_cases h0 : r.url = []
    · rw [if_pos h0]; exact ih st h
    · rw [if_neg h0]
      by_cases h1 : r.url ∈ st.seen_urls
      · rw [if_pos h1]; exact ih st h
      · rw [if_neg h1]
        by_cases h2 : (urlparse r.url).netloc ∈ st.seen_domains ∧
            2 ≤ st.selected.countP (fun u => containsSub (urlparse r.url).netloc u)
        · rw [if_pos h2]; exact ih st h
        · rw [if_neg h2]
          by_cases h3 : k ≤ (st.selected ++ [r.url]).length
          · rw [if_pos h3]
            simp only [List.length_append, List.length_singleton]
            omega
          · rw [if_neg h3]
            apply ih
            simp only [List.length_append, List.length_singleton] at h3 ⊢
            omega

theorem selectLoop_sublist (results : List SearchResult) (k : Nat) :
    ∀ st : SelState, ∃ t, selectLoop results k st = st.selected ++ t ∧
      List.Sublist t (results.map (·.url)) := by
  induction results with
  | nil => intro st; exact ⟨[], by simp [selectLoop], List.nil_sublist _⟩
  | cons r rest ih =>
    intro st
    unfold selectLoop
    by_cases h0 : r.url = []
    · rw [if_pos h0]
      obtain ⟨t, ht, hsub⟩ := ih st
      exact ⟨t, ht, hsub.trans (List.sublist_cons_self _ _)⟩
    · rw [if_neg h0]
      by_cases h1 : r.url ∈ st.seen_urls
      · rw [if_pos h1]
        obtain ⟨t, ht, hsub⟩ := ih st
        exact ⟨t, ht, hsub.trans (List.sublist_cons_self _ _)⟩
      · rw [if_neg h1]
        by_cases h2 : (urlparse r.url).netloc ∈ st.seen_domains ∧
            2 ≤ st.selected.countP (fun u => containsSub (urlparse r.url).netloc u)
        · rw [if_pos h2]
          obtain ⟨t, ht, hsub⟩ := ih st
          exact ⟨t, ht, hsub.trans (List.sublist_cons_self _ _)⟩
        · rw [if_neg h2]
          by_cases h3 : k ≤ (st.selected ++ [r.url]).length
          · rw [if_pos h3]
            exact ⟨[r.url], rfl, (List.nil_sublist _).cons₂ r.url⟩
          · rw [if_neg h3]
            obtain ⟨t, ht, hsub⟩ := ih
              ⟨st.selected ++ [r.url], r.url :: st.seen_urls,
                (urlparse r.url).netloc :: st.seen_domains⟩
            refine ⟨r.url :: t, ?_, hsub.cons₂ r.url⟩
            rw [ht]
            simp

theorem selectLoop_exhaust (results : List SearchResult) :
    ∀ (k k' : Nat) (st : SelState), k ≤ k' →
      (selectLoop results k st).length < k →
      selectLoop results k' st = selectLoop results k st := by
  induction results with
  | nil => intro k k' st _ _; rfl
  | cons r rest ih =>
    intro k k' st hkk hlen
    unfold selectLoop at hlen ⊢
    by_cases h0 : r.url = []
    · rw [if_pos h0] at hlen
      rw [if_pos h0, if_pos h0]
      exact ih k k' st hkk hlen
    · rw [if_neg h0] at hlen
      rw [if_neg h0, if_neg h0]
      by_cases h1 : r.url ∈ st.seen_urls
      · rw [if_pos h1] at hlen
        rw [if_pos h1, if_pos h1]
        exact ih k k' st hkk hlen
      · rw [if_neg h1] at hlen
        rw [if_neg h1, if_neg h1]
        by_cases h2 : (urlparse r.url).netloc ∈ st.seen_domains ∧
            2 ≤ st.selected.countP (fun u => containsSub (urlparse r.url).netloc u)
        · rw [if_pos h2] at hlen
          rw [if_pos h2, if_pos h2]
          exact ih k k' st hkk hlen
        · rw [if_neg h2] at hlen
          rw [if_neg h2, if_neg h2]
          by_cases h3 : k ≤ (st.selected ++ [r.url]).length
          · rw [if_pos h3] at hlen
            simp only [List.length_append, List.length_singleton] at hlen h3
            omega
          · rw [if_neg h3] at hlen
            rw [if_neg (by omega : ¬ k' ≤ (st.selected ++ [r.url]).length), if_neg h3]
            exact ih k k' _ hkk hlen

/-- **C4 (counterexample to the claim as stated).** With requested count
`K = 0` the selection step still selects one URL, because the budget check
runs only after an append: `at most K URLs` fails at `K = 0`. -/
theorem select_urls_budget_zero_counterexample :
    ¬ ((select_urls [⟨"t".data, "http://a.com/1".data, []⟩] 0).length ≤ 0) := by
  decide

/-- **C4 (amended).** For every ranked result list and every requested
count `K ≥ 1`, the URL-selection step selects at most `K` URLs (for
`K = 0` it can still select one, since the budget is checked only after an
append); no host (URL netloc) contributes more than 2 selected URLs; the
selected URLs are a subsequence of the candidate URL sequence; and when
fewer than `K` URLs were selected the scan has exhausted the candidates —
raising the budget selects nothing more, so the scan continued past
over-represented hosts to later-ranked URLs until `K` URLs were chosen or
the candidates ran out. -/
theorem select_urls_spec (results : List SearchResult) (k : Nat) (hk : 1 ≤ k) :
    (select_urls results k).length ≤ k ∧
    (∀ d, (select_urls results k).countP
      (fun x => decide ((urlparse x).netloc = d)) ≤ 2) ∧
    List.Sublist (select_urls results k) (results.map (·.url)) ∧
    (∀ k', k ≤ k' → (select_urls results k).length < k →
      select_urls results k' = select_urls results k) := by
  refine ⟨selectLoop_length results k _ (by simpa using hk), ?_, ?_, ?_⟩
  · exact selectLoop_netloc_cap results k ⟨[], [], []⟩ (by simp) (by simp)
  · obtain ⟨t, ht, hsub⟩ := selectLoop_sublist results k ⟨[], [], []⟩
    unfold select_urls
    rw [ht]
    simpa using hsub
  · intro k' hkk hlen
    exact selectLoop_exhaust results k k' ⟨[], [], []⟩ hkk hlen

/-- Witness for C4 at a concrete input: three URLs on host `a.com`
followed by one on `b.com`, with budget 3 — at most 3 selected, at most 2
per netloc. -/
theorem select_urls_spec_witness :
    (select_urls
      [⟨"t".data, "http://a.com/1".data, []⟩,
       ⟨"t".data, "http://a.com/2".data, []⟩,
       ⟨"t".data, "http://a.com/3".data, []⟩,
       ⟨"t".data, "http://b.com/1".data, []⟩] 3).length ≤ 3 ∧
    (select_urls
      [⟨"t".data, "http://a.com/1".data, []⟩,
       ⟨"t".data, "http://a.com/2".data, []⟩,
       ⟨"t".data, "http://a.com/3".data, []⟩,
       ⟨"t".data, "http://b.com/1".data, []⟩] 3).countP
        (fun x => decide ((urlparse x).netloc = "a.com".data)) ≤ 2 := by
  have h := select_urls_spec
    [⟨"t".data, "http://a.com/1".data, []⟩,
     ⟨"t".data, "http://a.com/2".data, []⟩,
     ⟨"t".data, "http://a.com/3".data, []⟩,
     ⟨"t".data, "http://b.com/1".data, []⟩] 3 (by omega)
  exact ⟨h.1, h.2.1 "a.com".data⟩

/-! ## C1 and C7: orchestrator control flow -/

theorem processOne_ext_eq_filt (st : ProcState) (u : Str) (o : FetchOutcome)
    (h : st.extracted_contents = st.filtered_contents) :
    (processOne st u o).extracted_contents = (processOne st u o).filtered_contents := by
  cases o with
  | exc m => exact h
  | ok text =>
    by_cases ht : text = []
    · simp [processOne, ht, h]
    · by_cases hq : (is_low_quality_content text).1
      · simp [processOne, ht, hq, h]
      · simp [processOne, ht, hq, h]

/-- In the content-processing loop, `extracted_contents` and
`filtered_contents` are always the same list: content is appended to both
only in the passed-quality branch, so the low-quality fallback condition
`not filtered_contents and extracted_contents` can never hold. -/
theorem processContents_ext_eq_filt (pairs : List (Str × FetchOutcome)) :
    (processContents pairs).extracted_contents =
      (processContents pairs).filtered_contents := by
  suffices h : ∀ st : ProcState, st.extracted_contents = st.filtered_contents →
      (pairs.foldl (fun st p => processOne st p.1 p.2) st).extracted_contents =
        (pairs.foldl (fun st p => processOne st p.1 p.2) st).filtered_contents from
    h initProcState rfl
  induction pairs with
  | nil => intro st h; exact h
  | cons p rest ih =>
    intro st h
    exact ih _ (processOne_ext_eq_filt st p.1 p.2 h)

theorem processOne_no_good (st : ProcState) (u : Str) (o : FetchOutcome)
    (h : st.filtered_contents = [])
    (hbad : ∀ t, o = FetchOutcome.ok t → t = [] ∨ (is_low_quality_content t).1 = true) :
    (processOne st u o).filtered_contents = [] := by
  cases o with
  | exc m => exact h
  | ok text =>
    rcases hbad text rfl with rfl | hlow
    · simp [processOne, h]
    · by_cases ht : text = []
      · simp [processOne, ht, h]
      · simp [processOne, ht, hlow, h]

theorem processContents_no_good (pairs : List (Str × FetchOutcome))
    (hbad : ∀ p ∈ pairs, ∀ t, p.2 = FetchOutcome.ok t →
      t = [] ∨ (is_low_quality_content t).1 = true) :
    (processContents pairs).filtered_contents = [] := by
  suffices h : ∀ st : ProcState, st.filtered_contents = [] →
      (∀ p ∈ pairs, ∀ t, p.2 = FetchOutcome.ok t →
        t = [] ∨ (is_low_quality_content t).1 = true) →
      (pairs.foldl (fun st p => processOne st p.1 p.2) st).filtered_contents = [] from
    h initProcState rfl hbad
  clear hbad
  induction pairs with
  | nil => intro st h _; exact h
  | cons p rest ih =>
    intro st h hbad
    exact ih _ (processOne_no_good st p.1 p.2 h (hbad p (List.mem_cons_self _ _)))
      (fun p2 hp2 => hbad p2 (List.mem_cons_of_mem _ hp2))

/-- Whenever every fetched text for the selected URLs is empty or
classified low-quality, `orchestrate_answer_generation` takes the terminal
"no usable content" branch — even when at least one fetch returned
(low-quality) text — because the fallback's `extracted_contents` list is
identical to `filtered_contents` and hence also empty. -/
theorem orchestrate_all_low_quality_is_terminal (env : OrchEnv) (query : Str)
    (k : Nat) (results : List SearchResult)
    (hsearch : env.searchOutcome = .ok results)
    (hlow : ∀ u ∈ select_urls results k, ∀ t, env.fetch u = .ok t →
      t = [] ∨ (is_low_quality_content t).1 = true) :
    (orchestrate_answer_generation env query k).answer = noContentMsg query ∧
    (orchestrate_answer_generation env query k).source_urls = [] ∧
    (orchestrate_answer_generation env query k).extracted_contents = [] := by
  have hpairs : ∀ p ∈ (select_urls results k).map (fun u => (u, env.fetch u)),
      ∀ t, p.2 = FetchOutcome.ok t → t = [] ∨ (is_low_quality_content t).1 = true := by
    intro p hp t hpt
    rcases List.mem_map.mp hp with ⟨u, hu, rfl⟩
    exact hlow u hu t hpt
  have hfil := processContents_no_good _ hpairs
  have hext := processContents_ext_eq_filt
    ((select_urls results k).map fun u => (u, env.fetch u))
  rw [hfil] at hext
  unfold orchestrate_answer_generation
  rw [hsearch]
  simp only [hfil, hext, if_pos rfl]
  exact ⟨rfl, rfl, rfl⟩

/-- **C1 (the code violates the claim).** Failing input evaluated
concretely: one search result whose fetch returns a 100-character text —
non-empty, hence "a content fetch returned text", but classified
low-quality (shorter than `MIN_CONTENT_LENGTH`).  The run does **not**
proceed to synthesis with the low-quality text: it returns the terminal
"no usable content" result with an empty source list and no content,
because the fallback branch at answer_orchestrator.py lines 196–201 is
unreachable (`extracted_contents` is only ever appended in the
passed-quality branch).  The synthesizer in this environment would have
returned an answer, which the output does not contain. -/
theorem orchestrate_low_quality_fallback_dead :
    (orchestrate_answer_generation
      ⟨.ok [⟨"t".data, "http://a.com/1".data, []⟩],
        fun _ => .ok (List.replicate 100 'x'),
        fun _ => .ok (some (List.replicate 60 'a')),
        fun _ _ => initEvalResults,
        fun _ => true⟩
      "q".data 3).answer = noContentMsg "q".data ∧
    (orchestrate_answer_generation
      ⟨.ok [⟨"t".data, "http://a.com/1".data, []⟩],
        fun _ => .ok (List.replicate 100 'x'),
        fun _ => .ok (some (List.replicate 60 'a')),
        fun _ _ => initEvalResults,
        fun _ => true⟩
      "q".data 3).source_urls = [] ∧
    noContentMsg "q".data ≠ List.replicate 60 'a' := by
  exact ⟨by decide, by decide, by decide⟩

theorem noContentMsg_ne_nil (query : Str) : noContentMsg query ≠ [] := by
  unfold noContentMsg
  intro habs
  apply_fun List.length at habs
  simp at habs

theorem saErrorMsg_ne_nil (query m : Str) : saErrorMsg query m ≠ [] := by
  unfold saErrorMsg
  intro habs
  apply_fun List.length at habs
  simp at habs

theorem unexpectedErrorMsg_ne_nil (query : Str) : unexpectedErrorMsg query ≠ [] := by
  unfold unexpectedErrorMsg
  intro habs
  apply_fun List.length at habs
  simp at habs

/-- **C7.** `orchestrate_answer_generation` always returns a structured
result (the embedding is a total function: every environment outcome,
including raised exceptions from search, fetch, synthesis and evaluation,
is handled), and in the two failure modes of the claim the returned answer
is a non-empty user-facing message with an empty source-URL list: (a) when
the search orchestration fails (e.g. all providers failed, which
`run_orchestration` surfaces as a raised `RuntimeError`), and (b) when no
usable content could be extracted. -/
theorem orchestrate_failure_modes (env : OrchEnv) (query : Str) (k : Nat) :
    (∀ e, env.searchOutcome = .error e →
      (orchestrate_answer_generation env query k).answer ≠ [] ∧
      (orchestrate_answer_generation env query k).source_urls = []) ∧
    (∀ results, env.searchOutcome = .ok results →
      (processContents ((select_urls results k).map
        fun u => (u, env.fetch u))).filtered_contents = [] →
      (orchestrate_answer_generation env query k).answer = noContentMsg query ∧
      (orchestrate_answer_generation env query k).answer ≠ [] ∧
      (orchestrate_answer_generation env query k).source_urls = []) := by
  constructor
  · intro e hsearch
    cases e with
    | sa m =>
      unfold orchestrate_answer_generation
      rw [hsearch]
      exact ⟨saErrorMsg_ne_nil query m, rfl⟩
    | other m =>
      unfold orchestrate_answer_generation
      rw [hsearch]
      exact ⟨unexpectedErrorMsg_ne_nil query, rfl⟩
  · intro results hsearch hfil
    have hext := processContents_ext_eq_filt
      ((select_urls results k).map fun u => (u, env.fetch u))
    rw [hfil] at hext
    unfold orchestrate_answer_generation
    rw [hsearch]
    simp only [hfil, hext, if_pos rfl]
    exact ⟨rfl, noContentMsg_ne_nil query, rfl⟩

/-- Witness for C7 at concrete environments: (a) search raises (all
providers failed); (b) search succeeds with zero results, so nothing can be
extracted.  In both runs the answer is non-empty and the source list
empty. -/
theorem orchestrate_failure_modes_witness :
    ((orchestrate_answer_generation
        ⟨.error (.other "All search modules failed to return results".data),
          fun _ => .exc [], fun _ => .ok none, fun _ _ => initEvalResults,
          fun _ => true⟩ "q".data 3).answer ≠ [] ∧
      (orchestrate_answer_generation
        ⟨.error (.other "All search modules failed to return results".data),
          fun _ => .exc [], fun _ => .ok none, fun _ _ => initEvalResults,
          fun _ => true⟩ "q".data 3).source_urls = []) ∧
    ((orchestrate_answer_generation
        ⟨.ok [], fun _ => .exc [], fun _ => .ok none, fun _ _ => initEvalResults,
          fun _ => true⟩ "q".data 3).answer ≠ [] ∧
      (orchestrate_answer_generation
        ⟨.ok [], fun _ => .exc [], fun _ => .ok none, fun _ _ => initEvalResults,
          fun _ => true⟩ "q".data 3).source_urls = []) := by
  constructor
  · exact (orchestrate_failure_modes
      ⟨.error (.other "All search modules failed to return results".data),
        fun _ => .exc [], fun _ => .ok none, fun _ _ => initEvalResults,
        fun _ => true⟩ "q".data 3).1
      (.other "All search modules failed to return results".data) rfl
  · have h := (orchestrate_failure_modes
      ⟨.ok [], fun _ => .exc [], fun _ => .ok none, fun _ _ => initEvalResults,
        fun _ => true⟩ "q".data 3).2 [] rfl (by decide)
    exact ⟨h.2.1, h.2.2⟩

end WSA
